import Mathlib

/-!
Verification of the sensor-network logging system: a shallow embedding of
`src/logger.py` (Logger: buffered CSV logging with rotation, archival and
range queries), `src/server/server.py` (NetworkServer), and
`src/network/client.py` (NetworkClient), with theorems settling the frozen
claims about the natural-language specification.

Python machine-level conventions used throughout:
* Python `float` values are modelled by `Dec` (a decimal `m * 10^(-e)`),
  because every float that the programs print and re-read round-trips
  exactly through its shortest decimal representation; exponent notation
  (`1e30`), `inf` and `nan` are outside the modelled fragment.
* Python `datetime` is modelled by the `DT` structure of calendar fields.
* CSV rows are modelled at the field level (`List String`), since Python's
  `csv` writer/reader round-trip fields exactly.
-/

namespace PyLog

/-! ## Decimal digits and fixed-width zero padding -/

/-- The ASCII digit character for `n < 10`. -/
def digitChar (n : Nat) : Char := Char.ofNat (48 + n)

/-- Reads a single ASCII digit character back to its value. -/
def charDigit (c : Char) : Option Nat :=
  if 48 ≤ c.toNat ∧ c.toNat ≤ 57 then some (c.toNat - 48) else none

/-- Fuel-driven worker for `natDigits` (structural recursion, so that the
kernel can evaluate it inside `decide`). -/
def natDigitsGo : Nat → Nat → List Nat
  | 0, _ => []
  | fuel + 1, n => if n < 10 then [n] else natDigitsGo fuel (n / 10) ++ [n % 10]

/-- The digit list (most significant first) of a natural number, no leading
zeros except for `0` itself. -/
def natDigits (n : Nat) : List Nat := natDigitsGo (n + 1) n

theorem natDigitsGo_fuel (fuel1 : Nat) :
    ∀ fuel2 n, n < fuel1 → n < fuel2 →
      natDigitsGo fuel1 n = natDigitsGo fuel2 n := by
  induction fuel1 using Nat.strong_induction_on with
  | _ fuel1 ih =>
    intro fuel2 n h1 h2
    match fuel1, fuel2 with
    | f1 + 1, f2 + 1 =>
      simp only [natDigitsGo]
      by_cases hn : n < 10
      · simp [hn]
      · rw [if_neg hn, if_neg hn,
          ih f1 (by omega) f2 (n / 10) (by omega) (by omega)]

theorem natDigits_eq (n : Nat) :
    natDigits n = if n < 10 then [n] else natDigits (n / 10) ++ [n % 10] := by
  by_cases hn : n < 10
  · rw [if_pos hn]
    unfold natDigits
    simp [natDigitsGo, hn]
  · rw [if_neg hn]
    show natDigitsGo (n + 1) n = natDigitsGo (n / 10 + 1) (n / 10) ++ [n % 10]
    rw [show natDigitsGo (n + 1) n
        = if n < 10 then [n] else natDigitsGo n (n / 10) ++ [n % 10] from rfl,
      if_neg hn,
      natDigitsGo_fuel n (n / 10 + 1) (n / 10) (by omega) (by omega)]

/-- Value of a digit list read most-significant-first. -/
def digitsVal (ds : List Nat) : Nat := ds.foldl (fun a d => 10 * a + d) 0

/-- Fixed-width digit list of `n` (the low `w` decimal digits, zero padded),
modelling Python's `%0wd` formatting for in-range values. -/
def padDigits : Nat → Nat → List Nat
  | 0, _ => []
  | w + 1, n => padDigits w (n / 10) ++ [n % 10]

/-- Decimal characters of `n`, no padding. -/
def natChars (n : Nat) : List Char := (natDigits n).map digitChar

/-- Zero-padded width-`w` decimal characters of `n`. -/
def padChars (w n : Nat) : List Char := (padDigits w n).map digitChar

theorem charDigit_digitChar : ∀ n < 10, charDigit (digitChar n) = some n := by
  decide

theorem charDigit_of_notDigit {c : Char} (h1 : c.toNat < 48 ∨ 57 < c.toNat) :
    charDigit c = none := by
  unfold charDigit
  rw [if_neg]
  omega

theorem natDigits_ne_nil (n : Nat) : natDigits n ≠ [] := by
  rw [natDigits_eq]
  split
  · simp
  · simp

theorem natDigits_lt (n : Nat) : ∀ d ∈ natDigits n, d < 10 := by
  induction n using Nat.strong_induction_on with
  | _ n ih =>
    rw [natDigits_eq]
    split
    · intro d hd
      simp at hd
      omega
    · intro d hd
      simp at hd
      rcases hd with hd | hd
      · exact ih (n / 10) (Nat.div_lt_self (by omega) (by omega)) d hd
      · omega

theorem digitsVal_foldl (ds : List Nat) (a : Nat) :
    ds.foldl (fun a d => 10 * a + d) a = a * 10 ^ ds.length + digitsVal ds := by
  induction ds generalizing a with
  | nil => simp [digitsVal]
  | cons d ds ih =>
    simp only [List.foldl_cons, List.length_cons, digitsVal, Nat.mul_zero,
      Nat.zero_add]
    rw [ih (10 * a + d), ih d]
    ring

theorem digitsVal_append (ds es : List Nat) :
    digitsVal (ds ++ es) = digitsVal ds * 10 ^ es.length + digitsVal es := by
  unfold digitsVal
  rw [List.foldl_append, digitsVal_foldl]
  rfl

theorem digitsVal_natDigits (n : Nat) : digitsVal (natDigits n) = n := by
  induction n using Nat.strong_induction_on with
  | _ n ih =>
    rw [natDigits_eq]
    split
    · simp [digitsVal]
    · rw [digitsVal_append, ih (n / 10) (Nat.div_lt_self (by omega) (by omega))]
      simp [digitsVal]
      omega

theorem padDigits_length (w n : Nat) : (padDigits w n).length = w := by
  induction w generalizing n with
  | zero => rfl
  | succ w ih => simp [padDigits, ih]

theorem padDigits_lt (w n : Nat) : ∀ d ∈ padDigits w n, d < 10 := by
  induction w generalizing n with
  | zero => simp [padDigits]
  | succ w ih =>
    intro d hd
    simp only [padDigits, List.mem_append, List.mem_singleton] at hd
    rcases hd with hd | hd
    · exact ih (n / 10) d hd
    · omega

theorem digitsVal_padDigits (w n : Nat) (h : n < 10 ^ w) :
    digitsVal (padDigits w n) = n := by
  induction w generalizing n with
  | zero =>
    simp [padDigits, digitsVal]
    omega
  | succ w ih =>
    rw [padDigits, digitsVal_append]
    rw [ih (n / 10) (by
      have : 10 ^ (w + 1) = 10 ^ w * 10 := pow_succ 10 w
      omega)]
    simp [digitsVal]
    omega

end PyLog

/-! ## Digit-run scanners -/

namespace PyLog

/-- Consume at most `k` leading ASCII digits. Returns
`(number of digits consumed, their value, remaining characters)`. -/
def grabDigits : Nat → List Char → Nat × Nat × List Char
  | 0, cs => (0, 0, cs)
  | _ + 1, [] => (0, 0, [])
  | k + 1, c :: cs =>
    match charDigit c with
    | none => (0, 0, c :: cs)
    | some d =>
      let r := grabDigits k cs
      (r.1 + 1, d * 10 ^ r.1 + r.2.1, r.2.2)

/-- Consume all leading ASCII digits. -/
def grabAll : List Char → Nat × Nat × List Char
  | [] => (0, 0, [])
  | c :: cs =>
    match charDigit c with
    | none => (0, 0, c :: cs)
    | some d =>
      let r := grabAll cs
      (r.1 + 1, d * 10 ^ r.1 + r.2.1, r.2.2)

/-- `true` when the list does not begin with an ASCII digit. -/
def headNotDigit : List Char → Bool
  | [] => true
  | c :: _ => (charDigit c).isNone

theorem digitsVal_cons (d : Nat) (ds : List Nat) :
    digitsVal (d :: ds) = d * 10 ^ ds.length + digitsVal ds := by
  show List.foldl _ (10 * 0 + d) ds = _
  rw [digitsVal_foldl]
  ring_nf

theorem grabDigits_stop (k : Nat) (cs : List Char)
    (h : headNotDigit cs = true) : grabDigits k cs = (0, 0, cs) := by
  match k, cs with
  | 0, cs => rfl
  | _ + 1, [] => rfl
  | _ + 1, c :: cs =>
    simp only [headNotDigit, Option.isNone_iff_eq_none] at h
    simp [grabDigits, h]

theorem grabAll_stop (cs : List Char) (h : headNotDigit cs = true) :
    grabAll cs = (0, 0, cs) := by
  match cs with
  | [] => rfl
  | c :: cs =>
    simp only [headNotDigit, Option.isNone_iff_eq_none] at h
    simp [grabAll, h]

theorem grabDigits_spec (k : Nat) (ds : List Nat) (rest : List Char)
    (hlen : ds.length ≤ k) (hds : ∀ d ∈ ds, d < 10)
    (hrest : headNotDigit rest = true) :
    grabDigits k (ds.map digitChar ++ rest) = (ds.length, digitsVal ds, rest) := by
  induction ds generalizing k with
  | nil =>
    simp only [List.map_nil, List.nil_append, List.length_nil]
    rw [grabDigits_stop k rest hrest]
    rfl
  | cons d ds ih =>
    match k with
    | 0 => simp at hlen
    | k + 1 =>
      have hd : d < 10 := hds d (by simp)
      have hcd : charDigit (digitChar d) = some d := charDigit_digitChar d hd
      simp only [List.map_cons, List.cons_append, grabDigits, hcd,
        List.append_eq]
      rw [ih k (by simpa using hlen) (fun x hx => hds x (by simp [hx]))]
      simp [digitsVal_cons]

theorem grabAll_spec (ds : List Nat) (rest : List Char)
    (hds : ∀ d ∈ ds, d < 10) (hrest : headNotDigit rest = true) :
    grabAll (ds.map digitChar ++ rest) = (ds.length, digitsVal ds, rest) := by
  induction ds with
  | nil =>
    simp only [List.map_nil, List.nil_append, List.length_nil]
    rw [grabAll_stop rest hrest]
    rfl
  | cons d ds ih =>
    have hd : d < 10 := hds d (by simp)
    have hcd : charDigit (digitChar d) = some d := charDigit_digitChar d hd
    simp only [List.map_cons, List.cons_append, grabAll, hcd, List.append_eq]
    rw [ih (fun x hx => hds x (by simp [hx]))]
    simp [digitsVal_cons]

theorem grabAll_natChars (n : Nat) (rest : List Char)
    (hrest : headNotDigit rest = true) :
    grabAll (natChars n ++ rest) = ((natDigits n).length, n, rest) := by
  rw [natChars, grabAll_spec (natDigits n) rest (natDigits_lt n) hrest,
    digitsVal_natDigits]

theorem grabAll_padChars (w n : Nat) (rest : List Char) (hn : n < 10 ^ w)
    (hrest : headNotDigit rest = true) :
    grabAll (padChars w n ++ rest) = (w, n, rest) := by
  rw [padChars, grabAll_spec (padDigits w n) rest (padDigits_lt w n) hrest,
    digitsVal_padDigits w n hn, padDigits_length]

/-! ## Python floats as decimals

`Dec m e` denotes the value `m * 10^(-e)`.  Every float the repository
prints (`str(x)` on the writing side) and re-reads (`float(s)` on the
reading side) is a finite decimal in this sense; `str`/`float` round-trip
exactly in Python, which the model mirrors.  Exponent notation, `inf`,
`nan`, leading `+` and surrounding whitespace accepted by Python's
`float()` are outside the modelled fragment. -/

structure Dec where
  m : Int
  e : Nat
deriving DecidableEq, Repr

/-- Characters of `str(x)` for the float denoted by a `Dec`. -/
def decChars (d : Dec) : List Char :=
  let n := d.m.natAbs
  let core :=
    if d.e = 0 then natChars n
    else natChars (n / 10 ^ d.e) ++ '.' :: padChars d.e (n % 10 ^ d.e)
  if d.m < 0 then '-' :: core else core

/-- `str(x)` for a modelled float. -/
def decStr (d : Dec) : String := String.mk (decChars d)

/-- `true` when the list begins with `'-'`. -/
def startsMinus : List Char → Bool
  | [] => false
  | c :: _ => c == '-'

/-- `true` when the list begins with `'.'`. -/
def startsDot : List Char → Bool
  | [] => false
  | c :: _ => c == '.'

/-- Unsigned decimal literal scanner: digits, optionally followed by a dot
and further digits; at least one digit overall. -/
def parseUDec (cs : List Char) : Option (Dec × List Char) :=
  let r := grabAll cs
  if startsDot r.2.2 then
    let rf := grabAll r.2.2.tail
    if r.1 = 0 && rf.1 = 0 then none
    else some (⟨((r.2.1 * 10 ^ rf.1 + rf.2.1 : Nat) : Int), rf.1⟩, rf.2.2)
  else
    if r.1 = 0 then none else some (⟨(r.2.1 : Int), 0⟩, r.2.2)

/-- Signed decimal literal scanner (the model of Python's `float(...)`
grammar on the fragment the repository produces). -/
def parseDecCore (cs : List Char) : Option (Dec × List Char) :=
  let neg := startsMinus cs
  let cs1 := if neg then cs.tail else cs
  (parseUDec cs1).map fun p => (⟨if neg then -p.1.m else p.1.m, p.1.e⟩, p.2)

/-- The model of Python's `float(s)`: the whole string must be a decimal
literal. -/
def pyFloatOfStr (s : String) : Option Dec :=
  match parseDecCore s.data with
  | some (d, []) => some d
  | _ => none

end PyLog

/-! ## Decimal round trip: `float(str(x)) = x` -/

namespace PyLog

/-- `true` when the list begins with neither a digit nor `'.'` (so a
maximal decimal literal ending right before it is parsed back whole). -/
def numBoundary : List Char → Bool
  | [] => true
  | c :: _ => (charDigit c).isNone && !(c == '.')

theorem numBoundary_headNotDigit {cs : List Char} (h : numBoundary cs = true) :
    headNotDigit cs = true := by
  match cs with
  | [] => rfl
  | c :: cs =>
    simp only [numBoundary, Bool.and_eq_true] at h
    simpa [headNotDigit] using h.1

theorem numBoundary_startsDot {cs : List Char} (h : numBoundary cs = true) :
    startsDot cs = false := by
  match cs with
  | [] => rfl
  | c :: cs =>
    simp only [numBoundary, Bool.and_eq_true, Bool.not_eq_eq_eq_not,
      Bool.not_true] at h
    simpa [startsDot] using h.2

theorem digitChar_not_special : ∀ x < 10,
    ((digitChar x == '-') = false ∧ (digitChar x == '.') = false) := by
  decide

theorem charDigit_dot : charDigit '.' = none := by decide

theorem startsMinus_natChars (n : Nat) (rest : List Char) :
    startsMinus (natChars n ++ rest) = false := by
  unfold natChars
  rcases h : natDigits n with _ | ⟨d, ds⟩
  · exact absurd h (natDigits_ne_nil n)
  · have hd : d < 10 := natDigits_lt n d (by rw [h]; simp)
    simp only [List.map_cons, List.cons_append, startsMinus]
    exact (digitChar_not_special d hd).1

theorem natChars_length_pos (n : Nat) : (natDigits n).length ≠ 0 := by
  intro h
  exact natDigits_ne_nil n (List.length_eq_zero.mp h)

theorem startsMinus_cons_minus (cs : List Char) :
    startsMinus ('-' :: cs) = true := rfl

theorem startsDot_cons_dot (cs : List Char) :
    startsDot ('.' :: cs) = true := rfl

theorem parseDecCore_of_noMinus (cs : List Char) (h : startsMinus cs = false) :
    parseDecCore cs = parseUDec cs := by
  unfold parseDecCore
  rw [h]
  simp

theorem parseDecCore_of_minus (cs : List Char) :
    parseDecCore ('-' :: cs)
      = (parseUDec cs).map fun p => (⟨-p.1.m, p.1.e⟩, p.2) := by
  unfold parseDecCore
  rw [startsMinus_cons_minus]
  simp

theorem parseUDec_spec0 (n : Nat) (rest : List Char)
    (h : numBoundary rest = true) :
    parseUDec (natChars n ++ rest) = some (⟨(n : Int), 0⟩, rest) := by
  have hg := grabAll_natChars n rest (numBoundary_headNotDigit h)
  have hsd := numBoundary_startsDot h
  unfold parseUDec
  rw [hg]
  simp [hsd, natChars_length_pos n]

theorem parseUDec_specF (n e : Nat) (rest : List Char)
    (h : numBoundary rest = true) :
    parseUDec (natChars (n / 10 ^ e)
        ++ '.' :: (padChars e (n % 10 ^ e) ++ rest))
      = some (⟨(n : Int), e⟩, rest) := by
  have hg1 := grabAll_natChars (n / 10 ^ e)
    ('.' :: (padChars e (n % 10 ^ e) ++ rest))
    (by simp [headNotDigit, charDigit_dot])
  have hg2 := grabAll_padChars e (n % 10 ^ e) rest
    (Nat.mod_lt n (Nat.pos_pow_of_pos e (by omega)))
    (numBoundary_headNotDigit h)
  unfold parseUDec
  rw [hg1]
  simp only [startsDot_cons_dot, if_true, List.tail_cons, hg2,
    Nat.div_add_mod' n (10 ^ e)]
  simp [natChars_length_pos (n / 10 ^ e)]

theorem parseDecCore_decChars (d : Dec) (rest : List Char)
    (h : numBoundary rest = true) :
    parseDecCore (decChars d ++ rest) = some (d, rest) := by
  obtain ⟨m, e⟩ := d
  have hubody : parseUDec ((if e = 0 then natChars m.natAbs
      else natChars (m.natAbs / 10 ^ e)
        ++ '.' :: padChars e (m.natAbs % 10 ^ e)) ++ rest)
      = some (⟨(m.natAbs : Int), e⟩, rest) := by
    by_cases he : e = 0
    · subst he
      rw [if_pos rfl]
      exact parseUDec_spec0 m.natAbs rest h
    · rw [if_neg he, List.append_assoc, List.cons_append]
      exact parseUDec_specF m.natAbs e rest h
  by_cases hm : m < 0
  · have hshape : decChars ⟨m, e⟩ ++ rest
        = '-' :: ((if e = 0 then natChars m.natAbs
            else natChars (m.natAbs / 10 ^ e)
              ++ '.' :: padChars e (m.natAbs % 10 ^ e)) ++ rest) := by
      simp [decChars, hm]
    rw [hshape, parseDecCore_of_minus, hubody]
    simp
    rw [abs_of_neg hm]
    ring
  · have hshape : decChars ⟨m, e⟩ ++ rest
        = (if e = 0 then natChars m.natAbs
            else natChars (m.natAbs / 10 ^ e)
              ++ '.' :: padChars e (m.natAbs % 10 ^ e)) ++ rest := by
      simp [decChars, hm]
    have hsm : startsMinus ((if e = 0 then natChars m.natAbs
        else natChars (m.natAbs / 10 ^ e)
          ++ '.' :: padChars e (m.natAbs % 10 ^ e)) ++ rest) = false := by
      by_cases he : e = 0
      · rw [if_pos he]
        exact startsMinus_natChars _ _
      · rw [if_neg he, List.append_assoc, List.cons_append]
        exact startsMinus_natChars _ _
    rw [hshape, parseDecCore_of_noMinus _ hsm, hubody]
    have : ((m.natAbs : Int)) = m := Int.natAbs_of_nonneg (by omega)
    simp [this]

/-- Exact round trip of the modelled Python floats through their textual
form: `float(str(x)) == x`. -/
theorem pyFloat_roundTrip (d : Dec) : pyFloatOfStr (decStr d) = some d := by
  unfold pyFloatOfStr decStr
  have : (String.mk (decChars d)).data = decChars d := rfl
  rw [this, ← List.append_nil (decChars d),
    parseDecCore_decChars d [] rfl]

end PyLog

/-! ## Python datetimes -/

namespace PyLog

/-- Python `datetime` calendar fields. -/
structure DT where
  year : Nat
  month : Nat
  day : Nat
  hour : Nat
  minute : Nat
  second : Nat
  micro : Nat
deriving DecidableEq, Repr

/-- Gregorian leap year, as `calendar.isleap`. -/
def isLeap (y : Nat) : Bool := y % 4 == 0 && (y % 100 != 0 || y % 400 == 0)

/-- Days in a month, as the `datetime` constructor enforces. -/
def daysInMonth (y m : Nat) : Nat :=
  if m = 2 then (if isLeap y then 29 else 28)
  else if m = 4 ∨ m = 6 ∨ m = 9 ∨ m = 11 then 30
  else 31

/-- The field ranges a real `datetime` object satisfies. -/
def ValidDT (t : DT) : Prop :=
  1 ≤ t.year ∧ t.year ≤ 9999 ∧ 1 ≤ t.month ∧ t.month ≤ 12 ∧ 1 ≤ t.day ∧
  t.day ≤ daysInMonth t.year t.month ∧ t.hour ≤ 23 ∧ t.minute ≤ 59 ∧
  t.second ≤ 59 ∧ t.micro ≤ 999999

instance (t : DT) : Decidable (ValidDT t) := by
  unfold ValidDT
  infer_instance

/-- Characters of Python's `str(datetime)`: `YYYY-MM-DD HH:MM:SS` and a
`.ffffff` suffix only when the microsecond field is nonzero — `str` omits
the fractional part entirely for whole seconds. -/
def dtChars (t : DT) : List Char :=
  padChars 4 t.year ++ '-' :: (padChars 2 t.month ++ '-' :: (padChars 2 t.day
    ++ ' ' :: (padChars 2 t.hour ++ ':' :: (padChars 2 t.minute
    ++ ':' :: (padChars 2 t.second
    ++ (if t.micro = 0 then [] else '.' :: padChars 6 t.micro))))))

/-- `str(datetime)`, as the CSV writer invokes it on the timestamp field. -/
def pyStrDT (t : DT) : String := String.mk (dtChars t)

/-- Read exactly `k` digits. -/
def exactDigits (k : Nat) (cs : List Char) : Option (Nat × List Char) :=
  let r := grabDigits k cs
  if r.1 = k then some (r.2.1, r.2.2) else none

/-- Read between 1 and `k` digits; returns `(count, value, rest)`. -/
def upToDigits (k : Nat) (cs : List Char) : Option (Nat × Nat × List Char) :=
  let r := grabDigits k cs
  if r.1 = 0 then none else some (r.1, r.2.1, r.2.2)

/-- Require one specific character. -/
def expectChar (c : Char) (cs : List Char) : Option (List Char) :=
  match cs with
  | c2 :: rest => if c2 = c then some rest else none
  | [] => none

/-- Date component of the reader's `strptime` format `%Y-%m-%d`:
four year digits, 1-2 month digits, 1-2 day digits. -/
def strpDate (cs : List Char) : Option (Nat × Nat × Nat × List Char) :=
  Option.bind (exactDigits 4 cs) fun (p1 : Nat × List Char) =>
  Option.bind (expectChar '-' p1.2) fun (cs1 : List Char) =>
  Option.bind (upToDigits 2 cs1) fun (p2 : Nat × Nat × List Char) =>
  Option.bind (expectChar '-' p2.2.2) fun (cs2 : List Char) =>
  Option.bind (upToDigits 2 cs2) fun (p3 : Nat × Nat × List Char) =>
  some (p1.1, p2.2.1, p3.2.1, p3.2.2)

/-- Time component `%H:%M:%S`: 1-2 digits per field. -/
def strpTime (cs : List Char) : Option (Nat × Nat × Nat × List Char) :=
  Option.bind (upToDigits 2 cs) fun (p4 : Nat × Nat × List Char) =>
  Option.bind (expectChar ':' p4.2.2) fun (cs4 : List Char) =>
  Option.bind (upToDigits 2 cs4) fun (p5 : Nat × Nat × List Char) =>
  Option.bind (expectChar ':' p5.2.2) fun (cs5 : List Char) =>
  Option.bind (upToDigits 2 cs5) fun (p6 : Nat × Nat × List Char) =>
  some (p4.2.1, p5.2.1, p6.2.1, p6.2.2)

/-- Fraction component `.%f`: a mandatory dot and 1-6 digits, scaled to
microseconds exactly as `strptime` does (`int(s) * 10^(6-len(s))`). -/
def strpFrac (cs : List Char) : Option (Nat × List Char) :=
  Option.bind (expectChar '.' cs) fun (cs6 : List Char) =>
  Option.bind (upToDigits 6 cs6) fun (p7 : Nat × Nat × List Char) =>
  some (p7.2.1 * 10 ^ (6 - p7.1), p7.2.2)

/-- Model of `datetime.strptime(s, "%Y-%m-%d %H:%M:%S.%f")`, the reader's
timestamp parse: date, space, time, a mandatory fractional part, the whole
string consumed, and the field ranges of a real `datetime`. -/
def strptimeMicro (s : String) : Option DT :=
  Option.bind (strpDate s.data) fun (pd : Nat × Nat × Nat × List Char) =>
  Option.bind (expectChar ' ' pd.2.2.2) fun (csm : List Char) =>
  Option.bind (strpTime csm) fun (pt : Nat × Nat × Nat × List Char) =>
  Option.bind (strpFrac pt.2.2.2) fun (pf : Nat × List Char) =>
  let t : DT := ⟨pd.1, pd.2.1, pd.2.2.1, pt.1, pt.2.1, pt.2.2.1, pf.1⟩
  if pf.2 = [] ∧ ValidDT t then some t else none

theorem exactDigits_pad (k n : Nat) (rest : List Char) (hn : n < 10 ^ k)
    (hrest : headNotDigit rest = true) :
    exactDigits k (padChars k n ++ rest) = some (n, rest) := by
  unfold exactDigits padChars
  rw [grabDigits_spec k (padDigits k n) rest (le_of_eq (padDigits_length k n))
    (padDigits_lt k n) hrest]
  simp [padDigits_length, digitsVal_padDigits k n hn]

theorem upToDigits_pad (k n : Nat) (rest : List Char) (hk : k ≠ 0)
    (hn : n < 10 ^ k) (hrest : headNotDigit rest = true) :
    upToDigits k (padChars k n ++ rest) = some (k, n, rest) := by
  unfold upToDigits padChars
  rw [grabDigits_spec k (padDigits k n) rest (le_of_eq (padDigits_length k n))
    (padDigits_lt k n) hrest]
  simp [padDigits_length, digitsVal_padDigits k n hn, hk]

theorem expectChar_cons (c : Char) (rest : List Char) :
    expectChar c (c :: rest) = some rest := by
  simp [expectChar]

theorem exactDigits_pad_sep (k n : Nat) (c : Char) (rest : List Char)
    (hn : n < 10 ^ k) (hc : charDigit c = none) :
    exactDigits k (padChars k n ++ c :: rest) = some (n, c :: rest) :=
  exactDigits_pad k n (c :: rest) hn (by simp [headNotDigit, hc])

theorem upToDigits_pad_sep (k n : Nat) (c : Char) (rest : List Char)
    (hk : k ≠ 0) (hn : n < 10 ^ k) (hc : charDigit c = none) :
    upToDigits k (padChars k n ++ c :: rest) = some (k, n, c :: rest) :=
  upToDigits_pad k n (c :: rest) hk hn (by simp [headNotDigit, hc])

theorem upToDigits_pad_nil (k n : Nat) (hk : k ≠ 0) (hn : n < 10 ^ k) :
    upToDigits k (padChars k n) = some (k, n, []) := by
  rw [← List.append_nil (padChars k n)]
  exact upToDigits_pad k n [] hk hn rfl

theorem charDigit_minus : charDigit '-' = none := by decide

theorem charDigit_space : charDigit ' ' = none := by decide

theorem charDigit_colon : charDigit ':' = none := by decide

theorem daysInMonth_le (y m : Nat) : daysInMonth y m ≤ 31 := by
  unfold daysInMonth
  split
  · split <;> omega
  · split <;> omega

theorem strpDate_spec (y mo d : Nat) (rest : List Char) (hy : y < 10000)
    (hmo : mo < 100) (hd : d < 100) (hrest : headNotDigit rest = true) :
    strpDate (padChars 4 y ++ '-' :: (padChars 2 mo
      ++ '-' :: (padChars 2 d ++ rest))) = some (y, mo, d, rest) := by
  unfold strpDate
  rw [exactDigits_pad_sep 4 y '-' _ (by omega) charDigit_minus]
  simp only [Option.some_bind, expectChar_cons]
  rw [upToDigits_pad_sep 2 mo '-' _ (by omega) (by omega) charDigit_minus]
  simp only [Option.some_bind, expectChar_cons]
  rw [upToDigits_pad 2 d rest (by omega) (by omega) hrest]
  simp only [Option.some_bind]

theorem strpTime_spec (h mi sec : Nat) (rest : List Char) (hh : h < 100)
    (hmi : mi < 100) (hs : sec < 100) (hrest : headNotDigit rest = true) :
    strpTime (padChars 2 h ++ ':' :: (padChars 2 mi
      ++ ':' :: (padChars 2 sec ++ rest))) = some (h, mi, sec, rest) := by
  unfold strpTime
  rw [upToDigits_pad_sep 2 h ':' _ (by omega) (by omega) charDigit_colon]
  simp only [Option.some_bind, expectChar_cons]
  rw [upToDigits_pad_sep 2 mi ':' _ (by omega) (by omega) charDigit_colon]
  simp only [Option.some_bind, expectChar_cons]
  rw [upToDigits_pad 2 sec rest (by omega) (by omega) hrest]
  simp only [Option.some_bind]

theorem strpTime_spec_nil (h mi sec : Nat) (hh : h < 100) (hmi : mi < 100)
    (hs : sec < 100) :
    strpTime (padChars 2 h ++ ':' :: (padChars 2 mi ++ ':' :: padChars 2 sec))
      = some (h, mi, sec, []) := by
  have hgen := strpTime_spec h mi sec [] hh hmi hs rfl
  rwa [List.append_nil] at hgen

theorem strpFrac_spec (mic : Nat) (hmic : mic < 1000000) :
    strpFrac ('.' :: padChars 6 mic) = some (mic, []) := by
  unfold strpFrac
  simp only [expectChar_cons, Option.some_bind]
  rw [upToDigits_pad_nil 6 mic (by omega) (by omega)]
  simp

/-- The writer/reader agreement half of the timestamp format contract:
a timestamp with a nonzero microsecond field survives `str` and is parsed
back exactly by the reader's `strptime` format. -/
theorem strptimeMicro_pyStrDT (t : DT) (hv : ValidDT t) (hm : t.micro ≠ 0) :
    strptimeMicro (pyStrDT t) = some t := by
  obtain ⟨y, mo, d, h, mi, sec, mic⟩ := t
  obtain ⟨h1, h2, h3, h4, h5, h6, h7, h8, h9, h10⟩ := hv
  simp only at h1 h2 h3 h4 h5 h6 h7 h8 h9 h10
  simp only at hm
  have hday : d < 100 := by
    have := daysInMonth_le y mo
    omega
  unfold strptimeMicro pyStrDT
  rw [dtChars]
  simp only [if_neg hm]
  rw [strpDate_spec y mo d _ (by omega) (by omega) (by omega)
    (by simp [headNotDigit, charDigit_space])]
  simp only [Option.some_bind, expectChar_cons]
  rw [strpTime_spec h mi sec _ (by omega) (by omega) (by omega)
    (by simp [headNotDigit, charDigit_dot])]
  simp only [Option.some_bind]
  rw [strpFrac_spec mic (by omega)]
  simp only [Option.some_bind]
  have hvd : ValidDT ⟨y, mo, d, h, mi, sec, mic⟩ := by
    exact ⟨h1, h2, h3, h4, h5, h6, h7, h8, h9, h10⟩
  rw [if_pos (And.intro trivial hvd)]

/-- The failing half of the format contract: a timestamp whose microsecond
field is zero is printed without any fractional part, and the reader's
mandatory `.%f` then rejects it. -/
theorem strptimeMicro_pyStrDT_zero (t : DT) (hv : ValidDT t)
    (hm : t.micro = 0) : strptimeMicro (pyStrDT t) = none := by
  obtain ⟨y, mo, d, h, mi, sec, mic⟩ := t
  obtain ⟨h1, h2, h3, h4, h5, h6, h7, h8, h9, h10⟩ := hv
  simp only at h1 h2 h3 h4 h5 h6 h7 h8 h9 h10
  simp only at hm
  have hday : d < 100 := by
    have := daysInMonth_le y mo
    omega
  unfold strptimeMicro pyStrDT
  rw [dtChars]
  simp only [hm, ite_true, eq_self_iff_true, List.append_nil, if_pos]
  rw [strpDate_spec y mo d _ (by omega) (by omega) (by omega)
    (by simp [headNotDigit, charDigit_space])]
  simp only [Option.some_bind, expectChar_cons]
  rw [strpTime_spec_nil h mi sec (by omega) (by omega) (by omega)]
  simp only [Option.some_bind]
  rfl

end PyLog

/-! ## Compact strftime, datetime ordering, ISO parsing -/

namespace PyLog

/-- `strftime("%Y%m%d_%H%M%S")`, the timestamp part of archive names. -/
def strfCompact (t : DT) : List Char :=
  padChars 4 t.year ++ (padChars 2 t.month ++ (padChars 2 t.day
    ++ '_' :: (padChars 2 t.hour ++ (padChars 2 t.minute
    ++ padChars 2 t.second))))

theorem padChars_length (w n : Nat) : (padChars w n).length = w := by
  simp [padChars, padDigits_length]

theorem digitChar_inj :
    ∀ a < 10, ∀ b < 10, digitChar a = digitChar b → a = b := by
  decide

theorem mapDigitChar_inj (ds1 ds2 : List Nat) (h1 : ∀ d ∈ ds1, d < 10)
    (h2 : ∀ d ∈ ds2, d < 10) (h : ds1.map digitChar = ds2.map digitChar) :
    ds1 = ds2 := by
  induction ds1 generalizing ds2 with
  | nil =>
    cases ds2 with
    | nil => rfl
    | cons b bs => simp at h
  | cons a as ih =>
    cases ds2 with
    | nil => simp at h
    | cons b bs =>
      simp only [List.map_cons, List.cons.injEq] at h
      have ha : a = b := digitChar_inj a (h1 a (by simp)) b (h2 b (by simp)) h.1
      have := ih bs (fun d hd => h1 d (by simp [hd]))
        (fun d hd => h2 d (by simp [hd])) h.2
      rw [ha, this]

theorem padChars_inj (w a b : Nat) (ha : a < 10 ^ w) (hb : b < 10 ^ w)
    (h : padChars w a = padChars w b) : a = b := by
  have := mapDigitChar_inj (padDigits w a) (padDigits w b)
    (padDigits_lt w a) (padDigits_lt w b) h
  have hva := digitsVal_padDigits w a ha
  have hvb := digitsVal_padDigits w b hb
  rw [← hva, ← hvb, this]

/-- Splitting an append equality at a known prefix length. -/
theorem append_split {α : Type} {as bs cs ds : List α}
    (h : as ++ bs = cs ++ ds) (hl : as.length = cs.length) :
    as = cs ∧ bs = ds :=
  List.append_inj h hl

/-- The compact strftime stamp determines the calendar fields down to the
second (the microsecond field is not printed). -/
theorem strfCompact_inj (t1 t2 : DT) (hv1 : ValidDT t1) (hv2 : ValidDT t2)
    (h : strfCompact t1 = strfCompact t2) :
    t1.year = t2.year ∧ t1.month = t2.month ∧ t1.day = t2.day ∧
    t1.hour = t2.hour ∧ t1.minute = t2.minute ∧ t1.second = t2.second := by
  obtain ⟨a1, a2, a3, a4, a5, a6, a7, a8, a9, a10⟩ := hv1
  obtain ⟨b1, b2, b3, b4, b5, b6, b7, b8, b9, b10⟩ := hv2
  have hd1 := daysInMonth_le t1.year t1.month
  have hd2 := daysInMonth_le t2.year t2.month
  unfold strfCompact at h
  obtain ⟨hy, h⟩ := append_split h (by rw [padChars_length, padChars_length])
  obtain ⟨hmo, h⟩ := append_split h (by rw [padChars_length, padChars_length])
  obtain ⟨hda, h⟩ := append_split h (by rw [padChars_length, padChars_length])
  have h := (List.cons.injEq _ _ _ _ ▸ h : _)
  obtain ⟨-, h⟩ := h
  obtain ⟨hh, h⟩ := append_split h (by rw [padChars_length, padChars_length])
  obtain ⟨hmi, hs⟩ := append_split h (by rw [padChars_length, padChars_length])
  refine ⟨?_, ?_, ?_, ?_, ?_, ?_⟩
  · exact padChars_inj 4 _ _ (by omega) (by omega) hy
  · exact padChars_inj 2 _ _ (by omega) (by omega) hmo
  · exact padChars_inj 2 _ _ (by omega) (by omega) hda
  · exact padChars_inj 2 _ _ (by omega) (by omega) hh
  · exact padChars_inj 2 _ _ (by omega) (by omega) hmi
  · exact padChars_inj 2 _ _ (by omega) (by omega) hs

/-- Lexicographic comparison key for datetimes: strictly monotone in each
field over the valid ranges, so `dtKey`-order is exactly Python's
field-by-field `datetime` order on valid values. -/
def dtKey (t : DT) : Nat :=
  (((((t.year * 13 + t.month) * 32 + t.day) * 24 + t.hour) * 60
    + t.minute) * 60 + t.second) * 1000000 + t.micro

/-- The smallest valid datetime, `datetime.min`. -/
def dtMinDT : DT := ⟨1, 1, 1, 0, 0, 0, 0⟩

/-- The largest valid datetime, `datetime.max`. -/
def dtMaxDT : DT := ⟨9999, 12, 31, 23, 59, 59, 999999⟩

theorem dtKey_bounds (t : DT) (hv : ValidDT t) :
    dtKey dtMinDT ≤ dtKey t ∧ dtKey t ≤ dtKey dtMaxDT := by
  obtain ⟨h1, h2, h3, h4, h5, h6, h7, h8, h9, h10⟩ := hv
  have hd := daysInMonth_le t.year t.month
  unfold dtKey dtMinDT dtMaxDT
  simp only
  constructor <;> nlinarith

/-- Time-of-day component of the modelled `fromisoformat` subset:
`HH:MM:SS` with an optional `.f{1,6}` fraction. -/
def isoTime (cs : List Char) : Option (Nat × Nat × Nat × Nat × List Char) :=
  Option.bind (exactDigits 2 cs) fun (q1 : Nat × List Char) =>
  Option.bind (expectChar ':' q1.2) fun (d1 : List Char) =>
  Option.bind (exactDigits 2 d1) fun (q2 : Nat × List Char) =>
  Option.bind (expectChar ':' q2.2) fun (d2 : List Char) =>
  Option.bind (exactDigits 2 d2) fun (q3 : Nat × List Char) =>
  match q3.2 with
  | '.' :: cs2 =>
    Option.bind (upToDigits 6 cs2) fun (q4 : Nat × Nat × List Char) =>
    some (q1.1, q2.1, q3.1, q4.2.1 * 10 ^ (6 - q4.1), q4.2.2)
  | rest => some (q1.1, q2.1, q3.1, 0, rest)

/-- Modelled subset of `datetime.fromisoformat` (Python standard library,
not repository code): `YYYY-MM-DD`, optionally followed by `T` or a space
and `HH:MM:SS` with an optional fractional part, with `datetime` range
validation.  Timezone suffixes and the short `HH:MM` form accepted by
Python 3.11+ are outside the modelled fragment. -/
def parseIso (s : String) : Option DT :=
  Option.bind (exactDigits 4 s.data) fun (p1 : Nat × List Char) =>
  Option.bind (expectChar '-' p1.2) fun (c1 : List Char) =>
  Option.bind (exactDigits 2 c1) fun (p2 : Nat × List Char) =>
  Option.bind (expectChar '-' p2.2) fun (c2 : List Char) =>
  Option.bind (exactDigits 2 c2) fun (p3 : Nat × List Char) =>
  match p3.2 with
  | [] =>
    let t : DT := ⟨p1.1, p2.1, p3.1, 0, 0, 0, 0⟩
    if ValidDT t then some t else none
  | sep :: cs =>
    if sep = 'T' ∨ sep = ' ' then
      Option.bind (isoTime cs) fun (q : Nat × Nat × Nat × Nat × List Char) =>
      let t : DT := ⟨p1.1, p2.1, p3.1, q.1, q.2.1, q.2.2.1, q.2.2.2.1⟩
      if q.2.2.2.2 = [] ∧ ValidDT t then some t else none
    else none

end PyLog

/-! ## The Logger record store (src/logger.py) -/

namespace PyLog

/-- One sensor reading: the four arguments of `Logger.log_reading`, which
are also the four fields of every dict `read_logs` yields. -/
structure Reading where
  ts : DT
  sid : String
  value : Dec
  unit : String
deriving DecidableEq, Repr

/-- A CSV data row at the field level.  The header row is implicit: every
file the logger creates starts with the fixed 4-column header and every
reader skips exactly one leading row. -/
abbrev Row : Type := List String

/-- `csv.writer.writerow` on a buffer entry: `str()` of each field —
`str(datetime)` for the timestamp, `str(float)` for the value, sensor id
and unit pass through unchanged. -/
def rowOfReading (r : Reading) : Row :=
  [pyStrDT r.ts, r.sid, decStr r.value, r.unit]

/-- `_read_log_file`'s per-row parse: exactly 4 columns, `strptime` with
`"%Y-%m-%d %H:%M:%S.%f"` on the timestamp, `float()` on the value; any
failure makes the row be skipped (`continue`). -/
def recOfRow (row : Row) : Option Reading :=
  match row with
  | [t, s, v, u] =>
    Option.bind (strptimeMicro t) fun ts =>
    Option.bind (pyFloatOfStr v) fun val =>
    some ⟨ts, s, val, u⟩
  | _ => none

/-- The reader's filter after a successful parse:
`start <= timestamp <= end`, then the optional sensor-id match. -/
def rowYield (ts te : DT) (sid : Option String) (row : Row) :
    Option Reading :=
  Option.bind (recOfRow row) fun r =>
  if dtKey ts ≤ dtKey r.ts ∧ dtKey r.ts ≤ dtKey te then
    if sid = none ∨ sid = some r.sid then some r else none
  else none

/-- Logger configuration (`config.json` keys).  A value `0` is falsy in
Python and disables the corresponding rotation predicate. -/
structure LogConfig where
  bufferSize : Nat
  rotateEveryHours : Nat
  maxSizeMb : Nat
  rotateAfterLines : Nat
  retentionDays : Nat
deriving DecidableEq, Repr

/-- A CSV file in `log_dir`: its name, its `getctime` stamp (set when the
file is created; the calendar form is what `_archive_current_file` formats
into the archive name), and its data rows. -/
structure FileEnt where
  name : String
  ctime : DT
  rows : List Row
deriving DecidableEq, Repr

/-- A zip in `log_dir/archive`: its name, its own `getctime` in epoch
seconds (what retention pruning compares), the name of the single CSV
entry inside, and that CSV's data rows. -/
structure ArchEnt where
  name : String
  ctimeSec : Nat
  innerName : String
  rows : List Row
deriving DecidableEq, Repr

/-- `datetime.now()` at a call site: calendar form, epoch seconds, and
`strftime(filename_pattern)` — the active-segment filename the configured
pattern yields at that instant. -/
structure Clock where
  dt : DT
  sec : Nat
  fileName : String
deriving DecidableEq, Repr

/-- The Logger's mutable state (`buffer`, the files on disk, the open-file
bookkeeping, `line_count`, `last_rotation_time`, and the configuration). -/
structure LoggerState where
  buffer : List Reading
  files : List FileEnt
  archives : List ArchEnt
  currentFilename : String
  fileOpen : Bool
  lineCount : Nat
  lastRotationSec : Nat
  config : LogConfig
deriving DecidableEq, Repr

/-- `Logger.start`: generate the filename from the pattern, open it in
append mode (creating it — with the header row, and resetting `line_count`
— only when it did not already exist), and reset the rotation clock. -/
def loggerStart (clk : Clock) (st : LoggerState) : LoggerState :=
  let fileExists := st.files.any fun f => f.name == clk.fileName
  { st with
    currentFilename := clk.fileName
    fileOpen := true
    files := if fileExists then st.files
             else st.files ++ [⟨clk.fileName, clk.dt, []⟩]
    lineCount := if fileExists then st.lineCount else 0
    lastRotationSec := clk.sec }

/-- Append rows to the file the open writer points at. -/
def updFile (files : List FileEnt) (name : String) (newRows : List Row) :
    List FileEnt :=
  files.map fun f =>
    if f.name = name then { f with rows := f.rows ++ newRows } else f

/-- `Logger._flush_buffer`: early return when the buffer is empty or the
writer is gone; otherwise write every buffered entry, bump `line_count`
per row, flush, and clear the buffer. -/
def flushBuffer (st : LoggerState) : LoggerState :=
  if st.buffer = [] ∨ st.fileOpen = false then st
  else
    { st with
      files := updFile st.files st.currentFilename
        (st.buffer.map rowOfReading)
      lineCount := st.lineCount + st.buffer.length
      buffer := [] }

/-- An execution of `_flush_buffer` whose `writerow` loop raises an I/O
error after `k` rows: the rows already handed to the writer are in the
file and `line_count` was bumped for them, but the exception propagates
before `buffer.clear()` runs, so the buffer is left untouched. -/
def flushBufferFail (k : Nat) (st : LoggerState) : LoggerState :=
  if st.buffer = [] ∨ st.fileOpen = false then st
  else
    { st with
      files := updFile st.files st.currentFilename
        ((st.buffer.take k).map rowOfReading)
      lineCount := st.lineCount + (st.buffer.take k).length }

/-- `Logger.stop`: flush a nonempty buffer, then close the file handle. -/
def loggerStop (st : LoggerState) : LoggerState :=
  let st1 := if st.buffer ≠ [] then flushBuffer st else st
  { st1 with fileOpen := false }

/-- `true` when a CSV field must be quoted by `csv.writer`. -/
def needsQuote (s : String) : Bool :=
  s.data.any fun c => c == ',' || c == '"' || c == '\r' || c == '\n'

/-- On-disk byte size of one CSV field (quotes added and doubled when the
field needs quoting). -/
def fieldBytes (s : String) : Nat :=
  if needsQuote s then
    s.utf8ByteSize + 2 + s.data.countP (fun c => c == '"')
  else s.utf8ByteSize

/-- On-disk byte size of one CSV line: fields, separators, `\r\n`. -/
def rowBytes (row : Row) : Nat :=
  (row.map fieldBytes).sum + (row.length - 1) + 2

/-- The fixed header row. -/
def headerRow : Row := ["timestamp", "sensor_id", "value", "unit"]

/-- `os.path.getsize` of an active file: header plus data lines. -/
def fileBytes (f : FileEnt) : Nat :=
  rowBytes headerRow + (f.rows.map rowBytes).sum

/-- Size of the file the writer points at (0 when absent). -/
def currentFileBytes (st : LoggerState) : Nat :=
  match st.files.find? (fun f => f.name == st.currentFilename) with
  | some f => fileBytes f
  | none => 0

/-- `_check_rotation`'s three predicates: elapsed hours, file size in MB,
cumulative line count; each disabled by a falsy (0) configuration value. -/
def needRotation (clk : Clock) (st : LoggerState) : Bool :=
  ((st.config.rotateEveryHours != 0) &&
    decide (3600 * st.config.rotateEveryHours ≤ clk.sec - st.lastRotationSec)) ||
  ((st.config.maxSizeMb != 0) &&
    decide (1048576 * st.config.maxSizeMb ≤ currentFileBytes st)) ||
  ((st.config.rotateAfterLines != 0) &&
    decide (st.config.rotateAfterLines ≤ st.lineCount))

/-- Archive name: `strftime("%Y%m%d_%H%M%S")` of the source file's
`getctime` stamp, an underscore, the original filename, `.zip`. -/
def mkArchName (ctime : DT) (filename : String) : String :=
  String.mk (strfCompact ctime) ++ "_" ++ filename ++ ".zip"

/-- `_archive_current_file`: skip when the current filename is falsy or
the file is gone; otherwise zip the file (as its single entry, under its
original name) into the archive directory — `zipfile.ZipFile(..., "w")`
overwrites any archive already bearing that name — and delete the
original.  The name stamp is `datetime.fromtimestamp(getctime(source))`,
the file's own creation/change stamp, not the time of archiving. -/
def archiveCurrentFile (clk : Clock) (st : LoggerState) : LoggerState :=
  if st.currentFilename = "" then st
  else
    match st.files.find? (fun f => f.name == st.currentFilename) with
    | none => st
    | some f =>
      let archName := mkArchName f.ctime st.currentFilename
      { st with
        files := st.files.filter fun g => g.name != st.currentFilename
        archives := (st.archives.filter fun a => a.name != archName)
          ++ [⟨archName, clk.sec, st.currentFilename, f.rows⟩] }

/-- `_clean_old_archives`: drop every archive whose `getctime` is older
than `retention_days` days before now. -/
def cleanOldArchives (clk : Clock) (st : LoggerState) : LoggerState :=
  { st with archives := st.archives.filter fun a =>
      !decide ((a.ctimeSec : Int)
        < (clk.sec : Int) - 86400 * (st.config.retentionDays : Int)) }

/-- `Logger._rotate`: stop (flush + close), archive, prune old archives,
start a fresh segment. -/
def rotate (clk : Clock) (st : LoggerState) : LoggerState :=
  loggerStart clk (cleanOldArchives clk (archiveCurrentFile clk (loggerStop st)))

/-- `_check_rotation`: no-op with no open file; otherwise rotate when any
predicate holds. -/
def checkRotation (clk : Clock) (st : LoggerState) : LoggerState :=
  if st.fileOpen = false then st
  else if needRotation clk st then rotate clk st else st

/-- `Logger.log_reading`: append to the buffer, flush at the threshold,
then evaluate the rotation predicates. -/
def logReading (clk : Clock) (r : Reading) (st : LoggerState) : LoggerState :=
  let st1 := { st with buffer := st.buffer ++ [r] }
  let st2 := if st.config.bufferSize ≤ st1.buffer.length then flushBuffer st1
             else st1
  checkRotation clk st2

/-- `filename.endswith(".csv")`, via list reversal (kernel-evaluable). -/
def strEndsWith (s t : String) : Bool :=
  t.data.reverse.isPrefixOf s.data.reverse

/-- Scan of one file's data rows. -/
def readLogFile (rows : List Row) (ts te : DT) (sid : Option String) :
    List Reading :=
  rows.filterMap (rowYield ts te sid)

/-- `Logger.read_logs`: every `*.csv` in `log_dir` first, then every zip
in the archive directory (reading only a `.csv` entry inside). -/
def readLogs (st : LoggerState) (ts te : DT) (sid : Option String) :
    List Reading :=
  (st.files.filter (fun f => strEndsWith f.name ".csv")).flatMap
    (fun f => readLogFile f.rows ts te sid)
  ++ st.archives.flatMap (fun a =>
      if strEndsWith a.innerName ".csv" then readLogFile a.rows ts te sid
      else [])

/-- `Logger.__init__` followed by its `start()` call, on an empty
`log_dir`. -/
def loggerInit (cfg : LogConfig) (clk : Clock) : LoggerState :=
  loggerStart clk ⟨[], [], [], "", false, 0, 0, cfg⟩

end PyLog

/-! ## The network server (src/server/server.py) -/

namespace PyLog

/-- JSON scalar values as `json.loads` yields them for the flat frames the
protocol carries: `null`, booleans, numbers (`jnum m e` denotes the decimal
`m * 10^(-e)`: an `int` when `e = 0`, a `float` otherwise; exponent
notation, `NaN` and `Infinity` are outside the modelled fragment), and
strings. -/
inductive JVal where
  | jnull : JVal
  | jbool (b : Bool) : JVal
  | jnum (m : Int) (e : Nat) : JVal
  | jstr (s : String) : JVal
deriving DecidableEq, Repr

/-- The Python exceptions `_process_data` can raise. -/
inductive PyErr where
  | keyError : PyErr
  | valueError : PyErr
  | typeError : PyErr
deriving DecidableEq, Repr

/-- `data[k]` on a parsed JSON object: `KeyError` when absent. -/
def dictGet (d : List (String × JVal)) (k : String) : Except PyErr JVal :=
  match d.find? (fun p => p.1 == k) with
  | some p => Except.ok p.2
  | none => Except.error PyErr.keyError

/-- `float(v)` on a JSON value: numbers and booleans coerce, strings are
parsed (`ValueError` on failure), `None` raises `TypeError`. -/
def pyFloat (v : JVal) : Except PyErr Dec :=
  match v with
  | .jnum m e => Except.ok ⟨m, e⟩
  | .jbool b => Except.ok ⟨if b then 1 else 0, 0⟩
  | .jstr s =>
    match pyFloatOfStr s with
    | some d => Except.ok d
    | none => Except.error PyErr.valueError
  | .jnull => Except.error PyErr.typeError

/-- `datetime.fromisoformat(v)`: `TypeError` on a non-string,
`ValueError` on an unparsable string. -/
def pyFromIso (v : JVal) : Except PyErr DT :=
  match v with
  | .jstr s =>
    match parseIso s with
    | some t => Except.ok t
    | none => Except.error PyErr.valueError
  | _ => Except.error PyErr.typeError

/-- The four arguments `_process_data` passes to `log_reading` (sensor id
and unit are taken from the frame without any type check, so they stay
raw JSON values). -/
structure SrvReading where
  ts : DT
  sid : JVal
  value : Dec
  unit : JVal
deriving DecidableEq, Repr

/-- The body of `_process_data`, before its `except` clause: look up and
coerce the four fields in source order, failing with the first
exception. -/
def processData (d : List (String × JVal)) : Except PyErr SrvReading :=
  Except.bind (dictGet d "timestamp") fun tv =>
  Except.bind (pyFromIso tv) fun ts =>
  Except.bind (dictGet d "sensor_id") fun sv =>
  Except.bind (dictGet d "value") fun vv =>
  Except.bind (pyFloat vv) fun val =>
  Except.bind (dictGet d "unit") fun uv =>
  Except.ok ⟨ts, sv, val, uv⟩

/-- `_process_data` with its `except (KeyError, ValueError)` handler: those
two are swallowed (the error is printed, nothing is logged, the method
returns normally); any other exception propagates to the caller.  Returns
`(reading logged, exception propagated)`. -/
def processDataCaught (d : List (String × JVal)) :
    Option SrvReading × Option PyErr :=
  match processData d with
  | .ok r => (some r, none)
  | .error .keyError => (none, none)
  | .error .valueError => (none, none)
  | .error .typeError => (none, some PyErr.typeError)

/-- Outcome of `_handle_client` on one frame. -/
structure HandleResult where
  logged : Option SrvReading
  ackSent : Bool
deriving DecidableEq, Repr

/-- `_handle_client` after framing: `none` models a complete frame that is
not valid JSON (`json.loads` raises, the handler's `except` catches, no
acknowledgment is written).  On a parsed frame the handler runs
`_process_data` and then — whether or not that swallowed a validation
error — writes `ACK\n`, unless an exception propagated. -/
def handleClient (frame : Option (List (String × JVal))) : HandleResult :=
  match frame with
  | none => ⟨none, false⟩
  | some d =>
    match processDataCaught d with
    | (r, none) => ⟨r, true⟩
    | (r, some _) => ⟨r, false⟩

/-- A frame that is valid JSON but lacks the required `value` key. -/
def frameMissingValue : List (String × JVal) :=
  [("timestamp", JVal.jstr "2024-01-01T10:00:00"),
   ("sensor_id", JVal.jstr "s1"),
   ("unit", JVal.jstr "C")]

/-- A frame whose `value` fails `float()` coercion. -/
def frameBadValue : List (String × JVal) :=
  [("timestamp", JVal.jstr "2024-01-01T10:00:00"),
   ("sensor_id", JVal.jstr "s1"),
   ("value", JVal.jstr "abc"),
   ("unit", JVal.jstr "C")]

/-- C1 counterexample: a frame that is valid JSON but misses the required
`value` key is dropped (nothing is logged) — yet the server still sends
the `ACK` token, because `_process_data` swallows the `KeyError` and
`_handle_client` then reaches its unconditional `sendall(b"ACK\n")`.  The
claim's "closes the connection without sending the ACK token" is false for
this input. -/
theorem claim_C1_counterexample :
    (handleClient (some frameMissingValue)).logged = none
    ∧ (handleClient (some frameMissingValue)).ackSent = true := by
  decide

/-- C1 amended: a frame that is not valid JSON is dropped and the
connection closes with no acknowledgment and nothing logged; but a frame
that is valid JSON whose validation fails with `KeyError` (missing key) or
`ValueError` (failed coercion) is dropped while the `ACK` token is still
sent. -/
theorem claim_C1 (d : List (String × JVal)) :
    (handleClient none).ackSent = false
    ∧ (handleClient none).logged = none
    ∧ (processData d = Except.error PyErr.keyError
        ∨ processData d = Except.error PyErr.valueError
        → handleClient (some d) = ⟨none, true⟩) := by
  refine ⟨rfl, rfl, ?_⟩
  intro h
  show (match processDataCaught d with
    | (r, none) => ({ logged := r, ackSent := true } : HandleResult)
    | (r, some _) => { logged := r, ackSent := false }) = ⟨none, true⟩
  unfold processDataCaught
  rcases h with h | h <;> rw [h]

/-- Witness for `claim_C1` at a concrete frame whose `value` is a
non-numeric string (`float` raises `ValueError`). -/
theorem claim_C1_witness :
    handleClient (some frameBadValue) = ⟨none, true⟩ :=
  (claim_C1 frameBadValue).2.2 (Or.inr rfl)

end PyLog

/-! ## The network client (src/network/client.py) -/

namespace PyLog

/-- Python `str.strip()`'s whitespace class (ASCII fragment). -/
def isSpaceChar (c : Char) : Bool :=
  c == ' ' || c == '\t' || c == '\n' || c == '\r' || c == '\x0b' || c == '\x0c'

/-- `s.strip()`. -/
def pyStrip (s : String) : String :=
  String.mk (((s.data.dropWhile isSpaceChar).reverse.dropWhile
    isSpaceChar).reverse)

/-- One attempt of the retry loop, seen from the client: either the socket
operation raised `socket.error`, or a response string arrived. -/
inductive Attempt where
  | sockErr : Attempt
  | resp (s : String) : Attempt
deriving DecidableEq, Repr

/-- Whether an attempt's outcome is the acknowledgment
(`recv(...).decode().strip() == "ACK"`). -/
def isAck (a : Attempt) : Bool :=
  match a with
  | .resp s => pyStrip s == "ACK"
  | .sockErr => false

/-- `NetworkClient.send`'s loop `for attempt in range(1, retries + 1)`,
driven by the outcomes of the successive attempts (`outcomes.length`
equals `retries`).  Returns `(result, attempts made, sleeps taken)`.  An
`ACK` response returns `True` immediately; a non-`ACK` response logs an
error and continues; `socket.error` logs, sleeps one second, and
continues; an exhausted loop returns `False` — the only `time.sleep` call
sits in the `socket.error` handler. -/
def sendLoop : List Attempt → Bool × Nat × Nat
  | [] => (false, 0, 0)
  | a :: rest =>
    match a with
    | .resp s =>
      if pyStrip s == "ACK" then (true, 1, 0)
      else
        let r := sendLoop rest
        (r.1, r.2.1 + 1, r.2.2)
    | .sockErr =>
      let r := sendLoop rest
      (r.1, r.2.1 + 1, r.2.2 + 1)

/-- C8 counterexample: a single attempt that fails with a non-`ACK`
response — the loop makes one failed attempt but sleeps zero times, so
"waits a fixed inter-attempt delay after each failed attempt (socket
error or non-ACK response)" is false: the delay happens only in the
socket-error branch. -/
theorem claim_C8_counterexample :
    sendLoop [Attempt.resp "NAK"] = (false, 1, 0) := by decide

theorem sendLoop_result (outcomes : List Attempt) :
    (sendLoop outcomes).1 = outcomes.any isAck := by
  induction outcomes with
  | nil => rfl
  | cons a rest ih =>
    match a with
    | .sockErr => simpa [sendLoop, isAck] using ih
    | .resp s =>
      by_cases hs : (pyStrip s == "ACK") = true
      · simp [sendLoop, isAck, hs]
      · simpa [sendLoop, isAck, hs] using ih

theorem sendLoop_attempts (outcomes : List Attempt) :
    (sendLoop outcomes).2.1
      = (outcomes.takeWhile (fun a => !isAck a)).length
        + (if outcomes.any isAck = true then 1 else 0) := by
  induction outcomes with
  | nil => rfl
  | cons a rest ih =>
    match a with
    | .sockErr =>
      have h1 : (Attempt.sockErr :: rest).takeWhile (fun a => !isAck a)
          = Attempt.sockErr :: rest.takeWhile (fun a => !isAck a) := by
        simp [List.takeWhile_cons, isAck]
      have h2 : (Attempt.sockErr :: rest).any isAck = rest.any isAck := by
        simp [isAck]
      rw [h2, h1]
      show (sendLoop rest).2.1 + 1 = _
      rw [ih]
      simp only [List.length_cons]
      omega
    | .resp s =>
      by_cases hs : (pyStrip s == "ACK") = true
      · have h1 : (Attempt.resp s :: rest).takeWhile (fun a => !isAck a)
            = [] := by
          simp [List.takeWhile_cons, isAck, hs]
        have h2 : (Attempt.resp s :: rest).any isAck = true := by
          simp [isAck, hs]
        rw [h1, h2]
        simp [sendLoop, hs]
      · have h1 : (Attempt.resp s :: rest).takeWhile (fun a => !isAck a)
            = Attempt.resp s :: rest.takeWhile (fun a => !isAck a) := by
          simp [List.takeWhile_cons, isAck, hs]
        have h2 : (Attempt.resp s :: rest).any isAck = rest.any isAck := by
          simp [isAck, hs]
        rw [h2, h1]
        have hstep : (sendLoop (Attempt.resp s :: rest)).2.1
            = (sendLoop rest).2.1 + 1 := by
          simp [sendLoop, hs]
        rw [hstep, ih]
        simp only [List.length_cons]
        omega

theorem sendLoop_sleeps (outcomes : List Attempt) :
    (sendLoop outcomes).2.2
      = (outcomes.takeWhile (fun a => !isAck a)).countP
          (fun a => a == Attempt.sockErr) := by
  induction outcomes with
  | nil => rfl
  | cons a rest ih =>
    match a with
    | .sockErr =>
      have h1 : (Attempt.sockErr :: rest).takeWhile (fun a => !isAck a)
          = Attempt.sockErr :: rest.takeWhile (fun a => !isAck a) := by
        simp [List.takeWhile_cons, isAck]
      rw [h1]
      show (sendLoop rest).2.2 + 1 = _
      rw [ih, List.countP_cons]
      simp
    | .resp s =>
      by_cases hs : (pyStrip s == "ACK") = true
      · have h1 : (Attempt.resp s :: rest).takeWhile (fun a => !isAck a)
            = [] := by
          simp [List.takeWhile_cons, isAck, hs]
        rw [h1]
        simp [sendLoop, hs]
      · have h1 : (Attempt.resp s :: rest).takeWhile (fun a => !isAck a)
            = Attempt.resp s :: rest.takeWhile (fun a => !isAck a) := by
          simp [List.takeWhile_cons, isAck, hs]
        rw [h1]
        have hstep : (sendLoop (Attempt.resp s :: rest)).2.2
            = (sendLoop rest).2.2 := by
          simp [sendLoop, hs]
        rw [hstep, ih, List.countP_cons]
        simp

theorem sendLoop_exhaust (outcomes : List Attempt)
    (h : (sendLoop outcomes).1 = false) :
    (sendLoop outcomes).2.1 = outcomes.length := by
  induction outcomes with
  | nil => rfl
  | cons a rest ih =>
    match a with
    | .sockErr =>
      have hr : (sendLoop rest).1 = false := by
        simpa [sendLoop] using h
      show (sendLoop rest).2.1 + 1 = rest.length + 1
      rw [ih hr]
    | .resp s =>
      by_cases hs : (pyStrip s == "ACK") = true
      · simp [sendLoop, hs] at h
      · have hr : (sendLoop rest).1 = false := by
          simpa [sendLoop, hs] using h
        have hstep : (sendLoop (Attempt.resp s :: rest)).2.1
            = (sendLoop rest).2.1 + 1 := by
          simp [sendLoop, hs]
        rw [hstep, ih hr]
        rfl

theorem sendLoop_le (outcomes : List Attempt) :
    (sendLoop outcomes).2.1 ≤ outcomes.length := by
  induction outcomes with
  | nil => exact Nat.le_refl 0
  | cons a rest ih =>
    match a with
    | .sockErr =>
      show (sendLoop rest).2.1 + 1 ≤ rest.length + 1
      omega
    | .resp s =>
      by_cases hs : (pyStrip s == "ACK") = true
      · simp [sendLoop, hs]
      · have hstep : (sendLoop (Attempt.resp s :: rest)).2.1
            = (sendLoop rest).2.1 + 1 := by
          simp [sendLoop, hs]
        rw [hstep]
        simp only [List.length_cons]
        omega

/-- C8 amended: on a connected client, `send` makes at most `retries`
attempts, returns `True` exactly when some attempt receives the (stripped)
`ACK` token, returns `False` — without raising — when all attempts are
exhausted, and waits the fixed delay only after socket-error attempts, not
after non-`ACK` responses. -/
theorem claim_C8 (outcomes : List Attempt) :
    (sendLoop outcomes).2.1 ≤ outcomes.length
    ∧ (sendLoop outcomes).1 = outcomes.any isAck
    ∧ (sendLoop outcomes).2.1
        = (outcomes.takeWhile (fun a => !isAck a)).length
          + (if outcomes.any isAck = true then 1 else 0)
    ∧ (sendLoop outcomes).2.2
        = (outcomes.takeWhile (fun a => !isAck a)).countP
            (fun a => a == Attempt.sockErr)
    ∧ ((sendLoop outcomes).1 = false
        → (sendLoop outcomes).2.1 = outcomes.length) :=
  ⟨sendLoop_le outcomes, sendLoop_result outcomes,
    sendLoop_attempts outcomes, sendLoop_sleeps outcomes,
    sendLoop_exhaust outcomes⟩

/-- Witness for `claim_C8` on a concrete run: one socket error, then a
rejection — the result is failure after both attempts with one sleep. -/
theorem claim_C8_witness :
    (sendLoop [Attempt.sockErr, Attempt.resp "NAK"]).2.1 = 2 := by
  have h := claim_C8 [Attempt.sockErr, Attempt.resp "NAK"]
  exact h.2.2.2.2 (by decide)

/-! ## NetworkClient.__init__ and the configuration (C10) -/

/-- The keys `config.yaml` provides to the client. -/
structure NetConfig where
  host : String
  port : Nat
  timeout : Dec
  retries : Nat
deriving DecidableEq, Repr

/-- The transport-relevant attributes `__init__` sets. -/
structure NetClient where
  host : String
  port : Nat
  timeout : Dec
  retries : Nat
deriving DecidableEq, Repr

/-- Python falsiness of an optional string argument (`None` or `""`). -/
def falsyStr : Option String → Bool
  | none => true
  | some s => s == ""

/-- Python falsiness of an optional integer argument (`None` or `0`). -/
def falsyNat : Option Nat → Bool
  | none => true
  | some n => n == 0

/-- Python falsiness of an optional float argument (`None` or `0.0`). -/
def falsyDec : Option Dec → Bool
  | none => true
  | some d => d.m == 0

/-- Python's `a or b` for an optional string argument. -/
def orStr (a : Option String) (b : String) : String :=
  if falsyStr a then b else a.getD b

/-- Python's `a or b` for an optional integer argument. -/
def orNat (a : Option Nat) (b : Nat) : Nat :=
  if falsyNat a then b else a.getD b

/-- Python's `a or b` for an optional float argument. -/
def orDec (a : Option Dec) (b : Dec) : Dec :=
  if falsyDec a then b else a.getD b

/-- `NetworkClient.__init__`: `config = load_config()` runs first and
unconditionally (the boolean in the result records that the load
happened), then every attribute is `argument or config[key]`. -/
def clientInit (host : Option String) (port : Option Nat)
    (timeout : Option Dec) (retries : Option Nat) (cfg : NetConfig) :
    NetClient × Bool :=
  (⟨orStr host cfg.host, orNat port cfg.port, orDec timeout cfg.timeout,
    orNat retries cfg.retries⟩, true)

/-- C10: constructing a `NetworkClient` always loads the configuration
file, even when every argument is supplied; and each falsy argument
(`None`, `0`, `0.0`, `""`) is replaced by the corresponding configuration
value, so an explicit request for a zero timeout or zero retries is
overridden by the configured value. -/
theorem claim_C10 (host : Option String) (port : Option Nat)
    (timeout : Option Dec) (retries : Option Nat) (cfg : NetConfig) :
    (clientInit host port timeout retries cfg).2 = true
    ∧ (falsyStr host = true
        → (clientInit host port timeout retries cfg).1.host = cfg.host)
    ∧ (falsyNat port = true
        → (clientInit host port timeout retries cfg).1.port = cfg.port)
    ∧ (falsyDec timeout = true
        → (clientInit host port timeout retries cfg).1.timeout = cfg.timeout)
    ∧ (falsyNat retries = true
        → (clientInit host port timeout retries cfg).1.retries = cfg.retries) := by
  refine ⟨rfl, ?_, ?_, ?_, ?_⟩ <;>
    intro h <;> simp [clientInit, orStr, orNat, orDec, h]

/-- Witness for `claim_C10`: all-falsy explicit arguments (`None`, `0`,
`0.0`, `0`) yield exactly the configured values. -/
theorem claim_C10_witness :
    (clientInit none (some 0) (some ⟨0, 1⟩) (some 0)
        ⟨"srv", 9000, ⟨50, 1⟩, 3⟩).2 = true
    ∧ (clientInit none (some 0) (some ⟨0, 1⟩) (some 0)
        ⟨"srv", 9000, ⟨50, 1⟩, 3⟩).1.retries = 3 := by
  have h := claim_C10 none (some 0) (some ⟨0, 1⟩) (some 0)
    ⟨"srv", 9000, ⟨50, 1⟩, 3⟩
  exact ⟨h.1, h.2.2.2.2 (by decide)⟩

end PyLog

/-! ## Claims C2, C5, C4 on the record store -/

namespace PyLog

/-- A clock for concrete runs (name matches the `*.csv` glob). -/
def clkA : Clock := ⟨⟨2024, 1, 1, 0, 0, 0, 0⟩, 1704067200, "sensors.csv"⟩

/-- A configuration with buffer size 1 (flush on every append) and default
rotation thresholds. -/
def cfgA : LogConfig := ⟨1, 24, 10, 100000, 30⟩

/-- A reading whose timestamp has a zero microsecond component. -/
def readingZeroMicro : Reading :=
  ⟨⟨2024, 1, 1, 0, 0, 0, 0⟩, "temp1", ⟨235, 1⟩, "C"⟩

/-- C2: the failing input run in full.  A reading whose timestamp has
microsecond 0 is appended and flushed; the persisted row has exactly the
four columns, but `str(datetime)` wrote `2024-01-01 00:00:00` with no
fractional part, and the reader's mandatory `"%Y-%m-%d %H:%M:%S.%f"`
format rejects the row, so a full-range query (with or without the sensor
filter) silently yields nothing — the writer violates its own reader's
format contract. -/
theorem claim_C2 :
    (logReading clkA readingZeroMicro (loggerInit cfgA clkA)).files.map
        (fun f => f.rows) = [[rowOfReading readingZeroMicro]]
    ∧ rowOfReading readingZeroMicro
        = ["2024-01-01 00:00:00", "temp1", "23.5", "C"]
    ∧ readLogs (logReading clkA readingZeroMicro (loggerInit cfgA clkA))
        dtMinDT dtMaxDT none = []
    ∧ readLogs (logReading clkA readingZeroMicro (loggerInit cfgA clkA))
        dtMinDT dtMaxDT (some "temp1") = [] := by
  decide

/-- Two distinct readings for the flush-failure scenario. -/
def readingP : Reading := ⟨⟨2024, 1, 1, 0, 0, 0, 1⟩, "a", ⟨1, 0⟩, "C"⟩

/-- Second distinct reading for the flush-failure scenario. -/
def readingQ : Reading := ⟨⟨2024, 1, 1, 0, 0, 0, 2⟩, "b", ⟨2, 0⟩, "C"⟩

/-- A state with two buffered readings over an empty open file. -/
def stFlush : LoggerState :=
  { buffer := [readingP, readingQ]
    files := [⟨"sensors.csv", ⟨2024, 1, 1, 0, 0, 0, 0⟩, []⟩]
    archives := []
    currentFilename := "sensors.csv"
    fileOpen := true
    lineCount := 0
    lastRotationSec := 0
    config := cfgA }

/-- C5 counterexample: a flush that fails after writing the first of two
buffered rows keeps the whole buffer (nothing is discarded), but the row
already written stays in the file, so the successful retry writes it a
second time: the file ends up holding that row twice and `line_count`
counts three writes for two readings.  This refutes both "the Record
Store's state is unchanged on error" and "no reading is written to the
file more than once across the failed attempt and a successful retry". -/
theorem claim_C5_counterexample :
    (flushBufferFail 1 stFlush).buffer = [readingP, readingQ]
    ∧ ((flushBuffer (flushBufferFail 1 stFlush)).files.map fun f => f.rows)
        = [[rowOfReading readingP, rowOfReading readingP,
            rowOfReading readingQ]]
    ∧ ((flushBuffer (flushBufferFail 1 stFlush)).files.flatMap
          fun f => f.rows).count (rowOfReading readingP) = 2
    ∧ (flushBuffer (flushBufferFail 1 stFlush)).lineCount = 3 := by
  decide

/-- C5 amended: a flush interrupted by an I/O error after any number of
written rows never discards a buffered reading — the buffer is left
exactly as it was, available for a later retry (and the file set keeps the
same files) — but the state is not unchanged: rows written before the
failure remain in the file, so a successful retry duplicates them. -/
theorem claim_C5 (k : Nat) (st : LoggerState) :
    (flushBufferFail k st).buffer = st.buffer
    ∧ (flushBufferFail k st).files.map (fun f => (f.name, f.ctime))
        = st.files.map (fun f => (f.name, f.ctime))
    ∧ (flushBufferFail k st).archives = st.archives := by
  unfold flushBufferFail
  split
  · exact ⟨rfl, rfl, rfl⟩
  · refine ⟨rfl, ?_, rfl⟩
    unfold updFile
    rw [List.map_map]
    apply List.map_congr_left
    intro f _
    by_cases hf : f.name = st.currentFilename <;> simp [hf]

end PyLog

namespace PyLog

/-- A sealed segment whose file stamp is far older than its sealing time. -/
def fileJan : FileEnt := ⟨"data.csv", ⟨2024, 1, 1, 0, 0, 0, 0⟩,
  [["x", "y", "z", "w"]]⟩

/-- A rotation instant in June. -/
def clkJune : Clock := ⟨⟨2024, 6, 15, 12, 34, 56, 0⟩, 1718454896, "data.csv"⟩

/-- State holding the January-stamped file as the current segment. -/
def stArch : LoggerState :=
  { buffer := []
    files := [fileJan]
    archives := []
    currentFilename := "data.csv"
    fileOpen := false
    lineCount := 1
    lastRotationSec := 0
    config := cfgA }

/-- C4 counterexample: sealing at clock `2024-06-15 12:34:56` a segment
whose file stamp (`os.path.getctime`) reads `2024-01-01 00:00:00` yields
the archive name `20240101_000000_data.csv.zip`: the timestamp component
is the source file's own ctime stamp, not the sealing (rotation) time
`20240615_123456`, refuting the `<sealed_at>` naming claim. -/
theorem claim_C4_counterexample :
    ((archiveCurrentFile clkJune stArch).archives.map fun a => a.name)
        = ["20240101_000000_data.csv.zip"]
    ∧ mkArchName clkJune.dt "data.csv" = "20240615_123456_data.csv.zip"
    ∧ ((archiveCurrentFile clkJune stArch).archives.map fun a => a.name)
        ≠ [mkArchName clkJune.dt "data.csv"] := by
  decide

theorem strfCompact_length (t : DT) : (strfCompact t).length = 15 := by
  simp [strfCompact, padChars_length]

/-- C4 amended: every produced archive is named
`<getctime-of-source:YYYYMMDD_HHMMSS>_<original filename>.zip` — the
timestamp is the source file's stamp, not the sealing time — and contains
the original CSV as its single entry; the name determines both the
(second-truncated) stamp and the original filename, so two archives
collide only when their source files carry the same ctime second and the
same filename. -/
theorem claim_C4 (clk : Clock) (st : LoggerState) (f : FileEnt)
    (hname : st.currentFilename ≠ "")
    (hfind : st.files.find? (fun g => g.name == st.currentFilename)
      = some f) :
    (archiveCurrentFile clk st).archives.getLast?
        = some ⟨mkArchName f.ctime st.currentFilename, clk.sec,
            st.currentFilename, f.rows⟩
    ∧ (∀ t1 t2 : DT, ∀ n1 n2 : String, ValidDT t1 → ValidDT t2 →
        mkArchName t1 n1 = mkArchName t2 n2 →
        (t1.year = t2.year ∧ t1.month = t2.month ∧ t1.day = t2.day ∧
         t1.hour = t2.hour ∧ t1.minute = t2.minute ∧
         t1.second = t2.second) ∧ n1 = n2) := by
  constructor
  · unfold archiveCurrentFile
    rw [if_neg hname, hfind]
    simp
  · intro t1 t2 n1 n2 hv1 hv2 h
    have hdata : (strfCompact t1 ++ ['_']) ++ (n1.data ++ ".zip".data)
        = (strfCompact t2 ++ ['_']) ++ (n2.data ++ ".zip".data) := by
      have hd := congrArg String.data h
      simpa [mkArchName, String.data_append, List.append_assoc] using hd
    obtain ⟨hpre, hsuf⟩ := append_split hdata
      (by simp [strfCompact_length])
    obtain ⟨hstrf, -⟩ := append_split hpre (by simp [strfCompact_length])
    obtain ⟨hn, -⟩ := List.append_inj' hsuf rfl
    refine ⟨strfCompact_inj t1 t2 hv1 hv2 hstrf, ?_⟩
    cases n1
    cases n2
    exact congrArg String.mk (by simpa using hn)

/-- Witness for `claim_C4` on the concrete January-stamped state, and the
injectivity conjunct at concrete equal names. -/
theorem claim_C4_witness :
    (archiveCurrentFile clkJune stArch).archives.getLast?
        = some ⟨mkArchName fileJan.ctime "data.csv", clkJune.sec,
            "data.csv", fileJan.rows⟩
    ∧ (⟨2024, 1, 1, 0, 0, 0, 0⟩ : DT).year
        = (⟨2024, 1, 1, 0, 0, 0, 5⟩ : DT).year := by
  have h := claim_C4 clkJune stArch fileJan (by decide) (by decide)
  refine ⟨h.1, ?_⟩
  exact ((h.2 ⟨2024, 1, 1, 0, 0, 0, 0⟩ ⟨2024, 1, 1, 0, 0, 0, 5⟩
    "a.csv" "a.csv" (by decide) (by decide) (by decide)).1).1

end PyLog

/-! ## Claim C7: rotation and the stored-rows multiset -/

namespace PyLog

/-- The multiset of all rows the record store holds: the data rows of
every file in `log_dir`, the data rows inside every archive, and the
buffered (pending) rows. -/
def storedRows (st : LoggerState) : Multiset Row :=
  (st.files.map fun f => (f.rows : Multiset Row)).sum
  + (st.archives.map fun a => (a.rows : Multiset Row)).sum
  + (st.buffer.map rowOfReading : List Row)

/-- A state holding an archive far older than the retention window. -/
def stOldArch : LoggerState :=
  { buffer := []
    files := [⟨"data.csv", ⟨2024, 6, 15, 12, 0, 0, 0⟩, []⟩]
    archives := [⟨"20230101_000000_old.csv.zip", 0, "old.csv",
      [["r", "s", "t", "u"]]⟩]
    currentFilename := "data.csv"
    fileOpen := true
    lineCount := 0
    lastRotationSec := 0
    config := cfgA }

/-- C7 counterexample: `_rotate` also runs `_clean_old_archives`, so
rotating while an archive is older than the retention window deletes that
archive's readings: the multiset of persisted rows after the rotation is
not equal to the multiset before it. -/
theorem claim_C7_counterexample :
    storedRows (rotate clkJune stOldArch) ≠ storedRows stOldArch
    ∧ storedRows stOldArch = (([["r", "s", "t", "u"]] : List Row) :
        Multiset Row)
    ∧ storedRows (rotate clkJune stOldArch) = 0 := by
  decide

theorem updFile_split (l1 : List FileEnt) (f : FileEnt) (l2 : List FileEnt)
    (name : String) (new : List Row) (hf : f.name = name)
    (h1 : ∀ g ∈ l1, g.name ≠ name) (h2 : ∀ g ∈ l2, g.name ≠ name) :
    updFile (l1 ++ f :: l2) name new
      = l1 ++ { f with rows := f.rows ++ new } :: l2 := by
  unfold updFile
  rw [List.map_append, List.map_cons, if_pos hf]
  congr 1
  · rw [List.map_congr_left fun g hg => if_neg (h1 g hg)]
    simp
  · congr 1
    rw [List.map_congr_left fun g hg => if_neg (h2 g hg)]
    simp

theorem find?_first (l1 : List FileEnt) (f : FileEnt) (l2 : List FileEnt)
    (name : String) (hf : f.name = name) (h1 : ∀ g ∈ l1, g.name ≠ name) :
    (l1 ++ f :: l2).find? (fun g => g.name == name) = some f := by
  induction l1 with
  | nil =>
    simp only [List.nil_append]
    exact List.find?_cons_of_pos _ (by simp [hf])
  | cons g l1 ih =>
    rw [List.cons_append,
      List.find?_cons_of_neg _ (by simp [h1 g (by simp)])]
    exact ih fun g hg => h1 g (by simp [hg])

/-- C7 amended: provided the rotation's fresh archive name does not
collide with an existing archive and no archive is older than the
retention window (and the state is well formed: the writer is open over a
present, uniquely-named, non-falsy current file), the multiset of stored
rows after `_rotate` equals the multiset before it: the buffer is flushed
into the segment before sealing, the sealed segment moves wholesale into
the archive, and the fresh Active Segment starts empty.  Without the
retention proviso rotation deliberately prunes out-of-window archives
(see the counterexample), and an archive-name collision overwrites the
older archive. -/
theorem claim_C7 (clk : Clock) (st : LoggerState)
    (hopen : st.fileOpen = true)
    (hname : st.currentFilename ≠ "")
    (hnodup : (st.files.map fun f => f.name).Nodup)
    (hmem : ∃ f ∈ st.files, f.name = st.currentFilename)
    (hfresh : ∀ a ∈ st.archives, ∀ f ∈ st.files,
      a.name ≠ mkArchName f.ctime st.currentFilename)
    (hret : ∀ a ∈ st.archives, ¬((a.ctimeSec : Int)
      < (clk.sec : Int) - 86400 * (st.config.retentionDays : Int))) :
    storedRows (rotate clk st) = storedRows st := by
  obtain ⟨f, hfmem, hfname⟩ := hmem
  obtain ⟨l1, l2, hsplit⟩ := List.append_of_mem hfmem
  have hnames : ∀ g ∈ l1 ++ l2, g.name ≠ st.currentFilename := by
    intro g hg
    have hmid : ((l1 ++ f :: l2).map fun f => f.name).Nodup := by
      rw [← hsplit]; exact hnodup
    rw [List.map_append, List.map_cons] at hmid
    have := List.nodup_middle.mp hmid
    rcases List.nodup_cons.mp this with ⟨hnot, -⟩
    intro hEq
    apply hnot
    rw [← List.map_append]
    have hgf : g.name = f.name := hEq.trans hfname.symm
    rw [← hgf]
    exact List.mem_map_of_mem _ hg
  have h1 : ∀ g ∈ l1, g.name ≠ st.currentFilename :=
    fun g hg => hnames g (by simp [hg])
  have h2 : ∀ g ∈ l2, g.name ≠ st.currentFilename :=
    fun g hg => hnames g (by simp [hg])
  -- step 1: stop = flush (if the buffer is nonempty) + close
  have hstop : loggerStop st = { st with
      files := l1 ++ { f with
        rows := f.rows ++ st.buffer.map rowOfReading } :: l2
      buffer := []
      fileOpen := false
      lineCount := st.lineCount + st.buffer.length } := by
    unfold loggerStop flushBuffer
    by_cases hb : st.buffer = []
    · rw [if_neg (by simp [hb])]
      simp [hb, hsplit]
    · rw [if_pos (by simp [hb]), if_neg (by simp [hb, hopen]), hsplit,
        updFile_split l1 f l2 st.currentFilename _ hfname h1 h2]
  -- step 2: archive the current file
  have harch : archiveCurrentFile clk (loggerStop st) = { st with
      files := l1 ++ l2
      buffer := []
      fileOpen := false
      lineCount := st.lineCount + st.buffer.length
      archives := st.archives
        ++ [⟨mkArchName f.ctime st.currentFilename, clk.sec,
            st.currentFilename,
            f.rows ++ st.buffer.map rowOfReading⟩] } := by
    rw [hstop]
    unfold archiveCurrentFile
    rw [if_neg hname]
    rw [show ((l1 ++ { f with
        rows := f.rows ++ st.buffer.map rowOfReading } :: l2).find?
          (fun g => g.name == st.currentFilename))
        = some { f with rows := f.rows ++ st.buffer.map rowOfReading } from
      find?_first l1 _ l2 st.currentFilename hfname h1]
    simp only
    congr 1
    · rw [List.filter_append, List.filter_cons]
      simp only [bne_iff_ne, ne_eq, hfname, not_true_eq_false,
        decide_False, Bool.false_eq_true, if_false]
      rw [List.filter_eq_self.mpr (fun g hg => by simp [h1 g hg]),
        List.filter_eq_self.mpr (fun g hg => by simp [h2 g hg])]
    · congr 1
      exact List.filter_eq_self.mpr fun a ha => by
        simp [hfresh a ha f hfmem]
  -- step 3: retention pruning removes nothing under the proviso
  have hclean : cleanOldArchives clk (archiveCurrentFile clk (loggerStop st))
      = archiveCurrentFile clk (loggerStop st) := by
    rw [harch]
    unfold cleanOldArchives
    congr 1
    apply List.filter_eq_self.mpr
    intro a ha
    simp only [List.mem_append, List.mem_singleton] at ha
    rcases ha with ha | ha
    · simp [hret a ha]
    · subst ha
      simp only [Bool.not_eq_eq_eq_not, Bool.not_true, decide_eq_false_iff_not]
      omega
  -- put the steps together
  rw [rotate, hclean, harch]
  unfold loggerStart storedRows
  by_cases hex : ((l1 ++ l2).any fun g => g.name == clk.fileName) = true <;>
    simp [hex, hsplit, List.map_append, List.sum_append,
      ← Multiset.coe_add] <;> abel

end PyLog

namespace PyLog

/-- Witness for `claim_C7`: a concrete rotation over a fresh archive name
and an in-window archive preserves the stored rows. -/
theorem claim_C7_witness :
    storedRows (rotate clkJune
      { buffer := [readingP]
        files := [⟨"data.csv", ⟨2024, 6, 15, 11, 0, 0, 0⟩,
          [["a", "b", "c", "d"]]⟩]
        archives := [⟨"20240610_000000_data.csv.zip", 1718000000,
          "data.csv", [["e", "f", "g", "h"]]⟩]
        currentFilename := "data.csv"
        fileOpen := true
        lineCount := 1
        lastRotationSec := 0
        config := cfgA })
    = storedRows
      { buffer := [readingP]
        files := [⟨"data.csv", ⟨2024, 6, 15, 11, 0, 0, 0⟩,
          [["a", "b", "c", "d"]]⟩]
        archives := [⟨"20240610_000000_data.csv.zip", 1718000000,
          "data.csv", [["e", "f", "g", "h"]]⟩]
        currentFilename := "data.csv"
        fileOpen := true
        lineCount := 1
        lastRotationSec := 0
        config := cfgA } :=
  claim_C7 clkJune _ (by decide) (by decide) (by decide) (by decide)
    (by decide) (by decide)

/-! ## Claim C6: the query characterization -/

/-- Spec-side notion: every persisted reading, in scan order — rows of the
`*.csv` files in `log_dir` first, then rows inside the archives (each
restricted to a `.csv` single entry), each parsed by the reader, with
unparsable (malformed) rows skipped. -/
def persistedReadings (st : LoggerState) : List Reading :=
  (st.files.filter (fun f => strEndsWith f.name ".csv")).flatMap
    (fun f => f.rows.filterMap recOfRow)
  ++ st.archives.flatMap (fun a =>
      if strEndsWith a.innerName ".csv" then a.rows.filterMap recOfRow
      else [])

/-- Spec-side query: the persisted readings whose timestamp lies in the
closed interval `[start, end]` and whose sensor id matches the filter when
one is given. -/
def specQuery (st : LoggerState) (ts te : DT) (sid : Option String) :
    List Reading :=
  (persistedReadings st).filter fun r =>
    decide ((dtKey ts ≤ dtKey r.ts ∧ dtKey r.ts ≤ dtKey te)
      ∧ (sid = none ∨ sid = some r.sid))

theorem readLogFile_eq (rows : List Row) (ts te : DT) (sid : Option String) :
    readLogFile rows ts te sid
      = (rows.filterMap recOfRow).filter (fun r =>
          decide ((dtKey ts ≤ dtKey r.ts ∧ dtKey r.ts ≤ dtKey te)
            ∧ (sid = none ∨ sid = some r.sid))) := by
  induction rows with
  | nil => rfl
  | cons row rest ih =>
    unfold readLogFile at ih ⊢
    rw [List.filterMap_cons, List.filterMap_cons]
    cases h : recOfRow row with
    | none =>
      have hy : rowYield ts te sid row = none := by
        unfold rowYield
        rw [h]
        rfl
      rw [hy, ih]
    | some r =>
      by_cases hc1 : dtKey ts ≤ dtKey r.ts ∧ dtKey r.ts ≤ dtKey te
      · by_cases hc2 : sid = none ∨ sid = some r.sid
        · have hy : rowYield ts te sid row = some r := by
            unfold rowYield
            rw [h]
            simp [hc1, hc2]
          rw [hy, ih]
          simp [hc1, hc2]
        · have hy : rowYield ts te sid row = none := by
            unfold rowYield
            rw [h]
            simp [hc1, hc2]
          rw [hy, ih]
          simp [hc1, hc2]
      · have hy : rowYield ts te sid row = none := by
          unfold rowYield
          rw [h]
          simp [hc1]
        rw [hy, ih]
        simp [hc1]

theorem filter_flatMap {α β : Type} (l : List α) (g : α → List β)
    (p : β → Bool) :
    (l.flatMap g).filter p = l.flatMap fun x => (g x).filter p := by
  induction l with
  | nil => rfl
  | cons x xs ih => simp [List.flatMap_cons, List.filter_append, ih]

/-- C6: for every `start`, `end` and optional sensor filter, `read_logs`
yields exactly the persisted readings whose timestamp lies in the closed
interval `[start, end]` and whose sensor id matches the filter when one is
given; it scans the current `*.csv` segment files first and the archives
after; rows that fail to parse (wrong column count, unparsable timestamp
or value) are skipped silently — the scan is total and never aborts. -/
theorem claim_C6 (st : LoggerState) (ts te : DT) (sid : Option String) :
    readLogs st ts te sid = specQuery st ts te sid := by
  unfold readLogs specQuery persistedReadings
  rw [List.filter_append, filter_flatMap, filter_flatMap]
  congr 1
  · simp only [readLogFile_eq]
  · congr 1
    funext a
    by_cases h : strEndsWith a.innerName ".csv" = true <;>
      simp [h, readLogFile_eq]

end PyLog

/-! ## Claim C3: appends below thresholds -/

namespace PyLog

/-- A flushed row of a valid reading with nonzero microseconds parses back
to the reading itself and passes the full-range, no-filter yield. -/
theorem rowYield_roundTrip (r : Reading) (hv : ValidDT r.ts)
    (hm : r.ts.micro ≠ 0) :
    rowYield dtMinDT dtMaxDT none (rowOfReading r) = some r := by
  obtain ⟨ts, sid, v, u⟩ := r
  simp only at hv hm
  have h1 : recOfRow (rowOfReading ⟨ts, sid, v, u⟩) = some ⟨ts, sid, v, u⟩ := by
    show Option.bind (strptimeMicro (pyStrDT ts)) _ = _
    rw [strptimeMicro_pyStrDT ts hv hm]
    simp only [Option.some_bind, pyFloat_roundTrip]
  unfold rowYield
  rw [h1]
  simp only [Option.some_bind]
  have hb := dtKey_bounds ts hv
  rw [if_pos (by exact ⟨hb.1, hb.2⟩)]
  exact if_pos (Or.inl trivial)

/-- Scanning the flushed image of a list of such readings returns exactly
the list, in order. -/
theorem readLogFile_roundTrip (rs : List Reading)
    (h : ∀ r ∈ rs, ValidDT r.ts ∧ r.ts.micro ≠ 0) :
    readLogFile (rs.map rowOfReading) dtMinDT dtMaxDT none = rs := by
  induction rs with
  | nil => rfl
  | cons r rest ih =>
    unfold readLogFile
    rw [List.map_cons, List.filterMap_cons,
      rowYield_roundTrip r (h r (by simp)).1 (h r (by simp)).2]
    have := ih fun x hx => h x (by simp [hx])
    unfold readLogFile at this
    rw [this]

/-- The state invariant along a run of below-threshold appends on a fresh
store: no rotation has happened, the single active file holds the flushed
prefix, the buffer holds the rest. -/
def appendInv (cfg : LogConfig) (clk : Clock) (done : List Reading)
    (st : LoggerState) : Prop :=
  ∃ flushed rem, flushed ++ rem = done
    ∧ st.buffer = rem
    ∧ st.files = [⟨clk.fileName, clk.dt, flushed.map rowOfReading⟩]
    ∧ st.archives = []
    ∧ st.currentFilename = clk.fileName
    ∧ st.fileOpen = true
    ∧ st.lineCount = flushed.length
    ∧ st.lastRotationSec = clk.sec
    ∧ st.config = cfg

theorem appendInv_init (cfg : LogConfig) (clk : Clock) :
    appendInv cfg clk [] (loggerInit cfg clk) :=
  ⟨[], [], rfl, rfl, rfl, rfl, rfl, rfl, rfl, rfl, rfl⟩

/-- A state that has seen no rotation and whose counters stay below the
thresholds does not rotate (with the clock it was opened under). -/
theorem needRotation_false (cfg : LogConfig) (clk : Clock)
    (bufX : List Reading) (rows : List Row) (lc : Nat)
    (hsize : rowBytes headerRow + (rows.map rowBytes).sum
      < 1048576 * cfg.maxSizeMb)
    (hlines : lc < cfg.rotateAfterLines) :
    needRotation clk ⟨bufX, [⟨clk.fileName, clk.dt, rows⟩], [],
      clk.fileName, true, lc, clk.sec, cfg⟩ = false := by
  unfold needRotation currentFileBytes fileBytes
  have ht : ((cfg.rotateEveryHours != 0) &&
      decide (3600 * cfg.rotateEveryHours ≤ clk.sec - clk.sec)) = false := by
    by_cases hz : cfg.rotateEveryHours = 0
    · simp [hz]
    · simp only [Bool.and_eq_false_iff]
      right
      simp only [decide_eq_false_iff_not]
      omega
  have hfind : (([⟨clk.fileName, clk.dt, rows⟩] :
      List FileEnt).find? fun f => f.name == clk.fileName)
      = some ⟨clk.fileName, clk.dt, rows⟩ :=
    List.find?_cons_of_pos _ (by simp)
  simp only
  rw [hfind, ht]
  simp only [Bool.false_or, Bool.or_eq_false_iff, Bool.and_eq_false_iff]
  constructor
  · right
    simp only [decide_eq_false_iff_not]
    omega
  · right
    simp only [decide_eq_false_iff_not]
    omega

theorem appendInv_step (cfg : LogConfig) (clk : Clock)
    (done : List Reading) (st : LoggerState) (r : Reading)
    (hinv : appendInv cfg clk done st)
    (hsize : rowBytes headerRow
      + (((done ++ [r]).map fun x => rowBytes (rowOfReading x)).sum)
      < 1048576 * cfg.maxSizeMb)
    (hlines : (done ++ [r]).length < cfg.rotateAfterLines) :
    appendInv cfg clk (done ++ [r]) (logReading clk r st) := by
  obtain ⟨flushed, rem, hfr, hbuf, hfiles, harch, hcur, hopen, hlc, hlrt,
    hcfg⟩ := hinv
  obtain ⟨buf, files, arch, cur, opn, lc, lrs, cf⟩ := st
  simp only at hbuf hfiles harch hcur hopen hlc hlrt hcfg
  subst hbuf hfiles harch hcur hopen hlc hlrt hcfg
  have hfr2 : flushed ++ (buf ++ [r]) = done ++ [r] := by
    rw [← List.append_assoc, hfr]
  have hsum : ((flushed ++ (buf ++ [r])).map
      (fun x => rowBytes (rowOfReading x))).sum
      = (((done ++ [r]).map fun x => rowBytes (rowOfReading x)).sum) := by
    rw [hfr2]
  have hlen : (flushed ++ (buf ++ [r])).length = (done ++ [r]).length := by
    rw [hfr2]
  by_cases hflush : cf.bufferSize ≤ (buf ++ [r]).length
  · -- the append reaches the threshold: the whole buffer is flushed
    have hstep : logReading clk r
        ⟨buf, [⟨clk.fileName, clk.dt, flushed.map rowOfReading⟩], [],
          clk.fileName, true, flushed.length, clk.sec, cf⟩
        = checkRotation clk
          ⟨[], [⟨clk.fileName, clk.dt,
              (flushed ++ (buf ++ [r])).map rowOfReading⟩], [],
            clk.fileName, true, (flushed ++ (buf ++ [r])).length,
            clk.sec, cf⟩ := by
      have hflush2 : cf.bufferSize ≤ buf.length + 1 := by
        simpa using hflush
      unfold logReading flushBuffer updFile
      simp [hflush2, List.map_append, List.length_append]
    have hnr := needRotation_false cf clk []
      ((flushed ++ (buf ++ [r])).map rowOfReading)
      ((flushed ++ (buf ++ [r])).length)
      (by rw [List.map_map]
          have heq : ((flushed ++ (buf ++ [r])).map
              (rowBytes ∘ rowOfReading)).sum
              = ((flushed ++ (buf ++ [r])).map
                (fun x => rowBytes (rowOfReading x))).sum := rfl
          rw [heq, hsum]
          exact hsize)
      (by rw [hlen]; exact hlines)
    rw [hstep]
    unfold checkRotation
    rw [if_neg (by simp), if_neg (by rw [hnr]; simp)]
    exact ⟨flushed ++ (buf ++ [r]), [], by simpa using hfr2, rfl, rfl,
      rfl, rfl, rfl, rfl, rfl, rfl⟩
  · -- the buffer stays below the threshold: the reading is only buffered
    have hstep : logReading clk r
        ⟨buf, [⟨clk.fileName, clk.dt, flushed.map rowOfReading⟩], [],
          clk.fileName, true, flushed.length, clk.sec, cf⟩
        = checkRotation clk
          ⟨buf ++ [r], [⟨clk.fileName, clk.dt, flushed.map rowOfReading⟩],
            [], clk.fileName, true, flushed.length, clk.sec, cf⟩ := by
      have hflush2 : ¬cf.bufferSize ≤ buf.length + 1 := by
        simpa using hflush
      unfold logReading
      simp [hflush2]
    have hnr := needRotation_false cf clk (buf ++ [r])
      (flushed.map rowOfReading) flushed.length
      (by rw [List.map_map]
          have h1 : ((flushed.map (rowBytes ∘ rowOfReading)).sum : Nat)
              ≤ ((flushed ++ (buf ++ [r])).map
                (rowBytes ∘ rowOfReading)).sum := by
            rw [List.map_append, List.sum_append]
            omega
          have h2 : ((flushed ++ (buf ++ [r])).map
              (rowBytes ∘ rowOfReading)).sum
              = (((done ++ [r]).map fun x =>
                  rowBytes (rowOfReading x)).sum) := by
            rw [← hsum]
            rfl
          omega)
      (by have : flushed.length ≤ (flushed ++ (buf ++ [r])).length := by
            simp
          omega)
    rw [hstep]
    unfold checkRotation
    rw [if_neg (by simp), if_neg (by rw [hnr]; simp)]
    exact ⟨flushed, buf ++ [r], hfr2, rfl, rfl, rfl, rfl, rfl, rfl,
      rfl, rfl⟩

theorem appendInv_fold (cfg : LogConfig) (clk : Clock)
    (todo : List Reading) : ∀ (done : List Reading) (st : LoggerState),
    appendInv cfg clk done st
    → rowBytes headerRow
        + (((done ++ todo).map fun x => rowBytes (rowOfReading x)).sum)
        < 1048576 * cfg.maxSizeMb
    → (done ++ todo).length < cfg.rotateAfterLines
    → appendInv cfg clk (done ++ todo)
        (todo.foldl (fun s x => logReading clk x s) st) := by
  induction todo with
  | nil =>
    intro done st hinv _ _
    simpa using hinv
  | cons r rest ih =>
    intro done st hinv hsize hlines
    have hre : done ++ r :: rest = (done ++ [r]) ++ rest := by simp
    have hstep := appendInv_step cfg clk done st r hinv
      (by rw [hre, List.map_append, List.sum_append] at hsize
          omega)
      (by rw [hre, List.length_append] at hlines
          rw [List.length_append]
          simp at hlines ⊢
          omega)
    rw [hre] at hsize hlines ⊢
    exact ih (done ++ [r]) (logReading clk r st) hstep hsize hlines

/-- C3 amended: for every sequence of appends on a fresh store that stays
below the size and line rotation thresholds (under one clock, so the
elapsed-time predicate is idle) and whose readings carry valid timestamps
with nonzero microseconds, no rotation occurs — the store still has no
archive and exactly its one active segment — and after the buffer is
flushed by `stop()`, a query over the full time range returns exactly the
appended readings in append order.  As written the claim is false on two
counts: a query issued before a flush misses the still-buffered suffix
(see the counterexample), and zero-microsecond timestamps are lost (claim
C2). -/
theorem claim_C3 (cfg : LogConfig) (clk : Clock) (rs : List Reading)
    (hcsv : strEndsWith clk.fileName ".csv" = true)
    (hsize : rowBytes headerRow
      + ((rs.map fun x => rowBytes (rowOfReading x)).sum)
      < 1048576 * cfg.maxSizeMb)
    (hlines : rs.length < cfg.rotateAfterLines)
    (hvalid : ∀ r ∈ rs, ValidDT r.ts ∧ r.ts.micro ≠ 0) :
    (loggerStop (rs.foldl (fun s x => logReading clk x s)
        (loggerInit cfg clk))).archives = []
    ∧ (loggerStop (rs.foldl (fun s x => logReading clk x s)
        (loggerInit cfg clk))).files.map (fun f => f.name) = [clk.fileName]
    ∧ readLogs (loggerStop (rs.foldl (fun s x => logReading clk x s)
        (loggerInit cfg clk))) dtMinDT dtMaxDT none = rs := by
  have hinv := appendInv_fold cfg clk rs [] (loggerInit cfg clk)
    (appendInv_init cfg clk) (by simpa using hsize) (by simpa using hlines)
  obtain ⟨flushed, rem, hfr, hbuf, hfiles, harch, hcur, hopen, hlc, hlrt,
    hcfg⟩ := hinv
  simp only [List.nil_append] at hfr
  set F := rs.foldl (fun s x => logReading clk x s) (loggerInit cfg clk)
    with hF
  clear_value F
  obtain ⟨fb, ff, fa, fc, fo, fl, flr, fcf⟩ := F
  simp only at hbuf hfiles harch hcur hopen hlc hlrt hcfg
  subst hbuf hfiles harch hcur hopen hlc hlrt hcfg
  have hstop : loggerStop ⟨fb, [⟨clk.fileName, clk.dt,
        flushed.map rowOfReading⟩], [], clk.fileName, true,
        flushed.length, clk.sec, fcf⟩
      = ⟨[], [⟨clk.fileName, clk.dt, ((flushed ++ fb).map rowOfReading)⟩],
          [], clk.fileName, false, flushed.length + fb.length, clk.sec,
          fcf⟩ := by
    unfold loggerStop flushBuffer updFile
    by_cases hb : fb = []
    · subst hb
      simp
    · rw [if_pos (by simpa using hb)]
      rw [if_neg (by simp [hb])]
      simp [List.map_append, List.length_append]
  rw [hstop]
  refine ⟨rfl, rfl, ?_⟩
  unfold readLogs
  simp only [List.filter_cons, hcsv, if_pos, List.filter_nil,
    List.flatMap_cons, List.flatMap_nil, List.append_nil]
  rw [hfr, readLogFile_roundTrip rs hvalid]

/-- Buffer size 2, so that a single append stays buffered. -/
def cfgBuf2 : LogConfig := ⟨2, 24, 10, 100000, 30⟩

/-- C3 counterexample: one below-threshold append on a buffer-size-2
store triggers no rotation — yet the full-range query returns nothing,
not the appended reading, because the reading still sits in the write
buffer and queries only see flushed data.  The claim as stated (query
returns exactly the appended readings) is false before a flush. -/
theorem claim_C3_counterexample :
    (logReading clkA readingP (loggerInit cfgBuf2 clkA)).archives = []
    ∧ (logReading clkA readingP (loggerInit cfgBuf2 clkA)).buffer
        = [readingP]
    ∧ readLogs (logReading clkA readingP (loggerInit cfgBuf2 clkA))
        dtMinDT dtMaxDT none = []
    ∧ readLogs (logReading clkA readingP (loggerInit cfgBuf2 clkA))
        dtMinDT dtMaxDT none ≠ [readingP] := by
  decide

/-- Witness for `claim_C3`: two concrete appends, flushed by `stop()`,
are returned exactly and in order by the full-range query. -/
theorem claim_C3_witness :
    readLogs (loggerStop ([readingP, readingQ].foldl
        (fun s x => logReading clkA x s) (loggerInit cfgA clkA)))
      dtMinDT dtMaxDT none = [readingP, readingQ] :=
  (claim_C3 cfgA clkA [readingP, readingQ] (by decide) (by decide)
    (by decide) (by decide)).2.2

end PyLog

/-! ## Claim C9: the protocol codec (json.dumps / json.loads) -/

namespace PyLog

/-- Lowercase hex digit character (as `json.dumps` emits). -/
def hexDigitChar (n : Nat) : Char :=
  Char.ofNat (if n < 10 then 48 + n else 87 + n)

/-- Hex digit value (`json.loads` accepts both cases). -/
def hexVal (c : Char) : Option Nat :=
  if 48 ≤ c.toNat ∧ c.toNat ≤ 57 then some (c.toNat - 48)
  else if 97 ≤ c.toNat ∧ c.toNat ≤ 102 then some (c.toNat - 87)
  else if 65 ≤ c.toNat ∧ c.toNat ≤ 70 then some (c.toNat - 55)
  else none

/-- Four-digit lowercase hex rendering of `v % 0x10000`. -/
def hex4 (v : Nat) : List Char :=
  [hexDigitChar (v / 4096 % 16), hexDigitChar (v / 256 % 16),
   hexDigitChar (v / 16 % 16), hexDigitChar (v % 16)]

/-- Value of four hex digit characters. -/
def hex4val (h1 h2 h3 h4 : Char) : Option Nat :=
  match hexVal h1, hexVal h2, hexVal h3, hexVal h4 with
  | some a, some b, some c, some d => some (a * 4096 + b * 256 + c * 16 + d)
  | _, _, _, _ => none

/-- `\uXXXX` escape(s) for a scalar value: one escape for BMP values, a
UTF-16 surrogate pair for astral ones — `json.dumps`'s `ensure_ascii`
behaviour. -/
def uEsc (v : Nat) : List Char :=
  if v < 65536 then '\\' :: 'u' :: hex4 v
  else '\\' :: 'u' :: hex4 (55296 + (v - 65536) / 1024)
    ++ '\\' :: 'u' :: hex4 (56320 + (v - 65536) % 1024)

/-- `json.dumps`'s per-character escaping (`ensure_ascii=True` default):
quote and backslash escaped, the five short control escapes, `\uXXXX` for
the remaining control characters and for everything non-ASCII, printable
ASCII verbatim. -/
def escChar (c : Char) : List Char :=
  if c = '"' then ['\\', '"']
  else if c = '\\' then ['\\', '\\']
  else if c = '\x08' then ['\\', 'b']
  else if c = '\x09' then ['\\', 't']
  else if c = '\x0a' then ['\\', 'n']
  else if c = '\x0c' then ['\\', 'f']
  else if c = '\x0d' then ['\\', 'r']
  else if c.toNat < 32 ∨ 126 < c.toNat then uEsc c.toNat
  else [c]

/-- Prepend a decoded character to a string-scanner result. -/
def consStr (c : Char) (o : Option (List Char × List Char)) :
    Option (List Char × List Char) :=
  o.map fun p => (c :: p.1, p.2)

/-- The short escapes `json.loads` knows after a backslash. -/
def escShort (e : Char) : Option Char :=
  if e = '"' then some '"'
  else if e = '\\' then some '\\'
  else if e = '/' then some '/'
  else if e = 'b' then some (Char.ofNat 8)
  else if e = 't' then some (Char.ofNat 9)
  else if e = 'n' then some (Char.ofNat 10)
  else if e = 'f' then some (Char.ofNat 12)
  else if e = 'r' then some (Char.ofNat 13)
  else none

/-- Second half of `\uXXXX` decoding, given the first code unit `v`: a
high surrogate demands an immediately following low-surrogate escape
(UTF-16 recombination); a lone low surrogate has no Lean counterpart and
fails; otherwise `v` is the scalar itself. -/
def uCombine (v : Nat) (rest3 : List Char) : Option (Char × List Char) :=
  if 55296 ≤ v ∧ v ≤ 56319 then
    match rest3 with
    | b2 :: u2 :: g1 :: g2 :: g3 :: g4 :: rest4 =>
      if b2 = '\\' ∧ u2 = 'u' then
        match hex4val g1 g2 g3 g4 with
        | none => none
        | some w =>
          if 56320 ≤ w ∧ w ≤ 57343 then
            some (Char.ofNat (65536 + (v - 55296) * 1024 + (w - 56320)),
              rest4)
          else none
      else none
    | _ => none
  else if 56320 ≤ v ∧ v ≤ 57343 then none
  else some (Char.ofNat v, rest3)

/-- `\uXXXX` decoding: four hex digits, then `uCombine`. -/
def uDecode (cs : List Char) : Option (Char × List Char) :=
  match cs with
  | h1 :: h2 :: h3 :: h4 :: rest3 =>
    match hex4val h1 h2 h3 h4 with
    | none => none
    | some v => uCombine v rest3
  | _ => none

theorem uCombine_length (v : Nat) (rest3 : List Char)
    (p : Char × List Char) (h : uCombine v rest3 = some p) :
    p.2.length ≤ rest3.length := by
  unfold uCombine at h
  split at h
  · split at h
    · split at h
      · split at h
        · exact absurd h (by simp)
        · split at h
          · injection h with h
            subst h
            simp only [List.length_cons]
            omega
          · exact absurd h (by simp)
      · exact absurd h (by simp)
    · exact absurd h (by simp)
  · split at h
    · exact absurd h (by simp)
    · injection h with h
      subst h
      simp

theorem uDecode_length (cs : List Char) (p : Char × List Char)
    (h : uDecode cs = some p) : p.2.length ≤ cs.length := by
  unfold uDecode at h
  split at h
  · split at h
    · exact absurd h (by simp)
    · have := uCombine_length _ _ _ h
      simp only [List.length_cons]
      omega
  · exact absurd h (by simp)

/-- The scanner for a JSON string body (after the opening quote), as
`json.loads` reads it: plain characters verbatim (including raw
non-ASCII), the short escapes, and `\uXXXX` with UTF-16 surrogate-pair
recombination.  A lone surrogate — which Python would keep as a lone
surrogate `str` character — has no Lean `Char` counterpart and is outside
the modelled fragment (the parse fails). -/
def parseStrBody (cs : List Char) : Option (List Char × List Char) :=
  match cs with
  | [] => none
  | c :: rest =>
    if c = '"' then some ([], rest)
    else if c = '\\' then
      match rest with
      | [] => none
      | e :: rest2 =>
        if e = 'u' then
          match h : uDecode rest2 with
          | none => none
          | some p => consStr p.1 (parseStrBody p.2)
        else
          match escShort e with
          | none => none
          | some c2 => consStr c2 (parseStrBody rest2)
    else consStr c (parseStrBody rest)
termination_by cs.length
decreasing_by
  · have := uDecode_length _ _ h
    simp only [List.length_cons]
    omega
  · simp only [List.length_cons]
    omega
  · simp only [List.length_cons]
    omega

/-- JSON insignificant whitespace skipping, as in `json.loads`. -/
def skipWs (cs : List Char) : List Char :=
  cs.dropWhile fun c => c == ' ' || c == '\t' || c == '\n' || c == '\r'

/-- `json.dumps` of one scalar value: `null`/`true`/`false` keywords,
numbers via their decimal `repr`, strings quoted and escaped. -/
def dumpVal : JVal → List Char
  | .jnull => ['n', 'u', 'l', 'l']
  | .jbool true => ['t', 'r', 'u', 'e']
  | .jbool false => ['f', 'a', 'l', 's', 'e']
  | .jnum m e => decChars ⟨m, e⟩
  | .jstr s => '"' :: (s.data.flatMap escChar ++ ['"'])

/-- `json.loads` of one scalar value. -/
def parseVal (cs : List Char) : Option (JVal × List Char) :=
  match cs with
  | [] => none
  | c :: rest =>
    if c = 'n' then
      match rest with
      | 'u' :: 'l' :: 'l' :: rest2 => some (JVal.jnull, rest2)
      | _ => none
    else if c = 't' then
      match rest with
      | 'r' :: 'u' :: 'e' :: rest2 => some (JVal.jbool true, rest2)
      | _ => none
    else if c = 'f' then
      match rest with
      | 'a' :: 'l' :: 's' :: 'e' :: rest2 => some (JVal.jbool false, rest2)
      | _ => none
    else if c = '"' then
      (parseStrBody rest).map fun p => (JVal.jstr (String.mk p.1), p.2)
    else
      (parseDecCore (c :: rest)).map fun p => (JVal.jnum p.1.m p.1.e, p.2)

/-- One `"key": value` item as `json.dumps` renders it (the default
`': '` key separator). -/
def dumpEntry (kv : String × JVal) : List Char :=
  '"' :: (kv.1.data.flatMap escChar ++ ['"']) ++ ':' :: ' ' :: dumpVal kv.2

/-- One `"key": value` item as `json.loads` reads it. -/
def parseEntry (cs : List Char) : Option ((String × JVal) × List Char) :=
  match cs with
  | [] => none
  | c :: rest =>
    if c = '"' then
      (parseStrBody rest).bind fun pk =>
      match skipWs pk.2 with
      | [] => none
      | c2 :: rest2 =>
        if c2 = ':' then
          (parseVal (skipWs rest2)).map fun pv =>
            ((String.mk pk.1, pv.1), pv.2)
        else none
    else none

/-- The items after the first, each preceded by the default `', '` item
separator, then the closing brace. -/
def dumpTail (l : List (String × JVal)) : List Char :=
  l.flatMap (fun kv => ',' :: ' ' :: dumpEntry kv) ++ ['}']

/-- `json.dumps` of a flat string-keyed object (default separators). -/
def dumpObj (d : List (String × JVal)) : List Char :=
  match d with
  | [] => ['{', '}']
  | kv :: rest => '{' :: (dumpEntry kv ++ dumpTail rest)

/-- `NetworkClient._serialize`: `json.dumps(data)` (UTF-8 encoding is the
identity at this model's character level). -/
def dumps (d : List (String × JVal)) : String := String.mk (dumpObj d)

/-- The object-items loop of `json.loads`, fuelled (each iteration
consumes at least the separating comma, so any fuel above the input
length is enough). -/
def parseEntries : Nat → List Char →
    Option (List (String × JVal) × List Char)
  | 0, _ => none
  | fuel + 1, cs =>
    match skipWs cs with
    | [] => none
    | c :: rest =>
      if c = '}' then some ([], rest)
      else if c = ',' then
        (parseEntry (skipWs rest)).bind fun pe =>
        (parseEntries fuel pe.2).map fun pr => (pe.1 :: pr.1, pr.2)
      else none

/-- `NetworkClient._deserialize`: `json.loads(raw)` on the flat-object
fragment the protocol carries; `none` models a raised `JSONDecodeError`. -/
def loads (s : String) : Option (List (String × JVal)) :=
  match skipWs s.data with
  | [] => none
  | c :: rest =>
    if c = '{' then
      match skipWs rest with
      | [] => none
      | c2 :: rest2 =>
        if c2 = '}' then
          if skipWs rest2 = [] then some [] else none
        else
          (parseEntry (c2 :: rest2)).bind fun pe =>
          (parseEntries (pe.2.length + 1) pe.2).bind fun pr =>
          if skipWs pr.2 = [] then some (pe.1 :: pr.1) else none
    else none

end PyLog

/-! ## C9 round trip: the string escape layer -/

namespace PyLog

theorem hexVal_hexDigitChar (n : Nat) (h : n < 16) :
    hexVal (hexDigitChar n) = some n := by
  interval_cases n <;> decide

theorem hex4val_hex4 (v : Nat) (h : v < 65536) :
    hex4val (hexDigitChar (v / 4096 % 16)) (hexDigitChar (v / 256 % 16))
      (hexDigitChar (v / 16 % 16)) (hexDigitChar (v % 16)) = some v := by
  unfold hex4val
  rw [hexVal_hexDigitChar _ (Nat.mod_lt _ (by decide)),
    hexVal_hexDigitChar _ (Nat.mod_lt _ (by decide)),
    hexVal_hexDigitChar _ (Nat.mod_lt _ (by decide)),
    hexVal_hexDigitChar _ (Nat.mod_lt _ (by decide))]
  exact congrArg some (by omega)

theorem parseStrBody_quote (rest : List Char) :
    parseStrBody ('"' :: rest) = some ([], rest) := by
  unfold parseStrBody
  rw [if_pos rfl]

theorem parseStrBody_esc (e c2 : Char) (rest : List Char)
    (he : escShort e = some c2) (hu : e ≠ 'u') :
    parseStrBody ('\\' :: e :: rest) = consStr c2 (parseStrBody rest) := by
  conv_lhs => rw [parseStrBody.eq_def]
  dsimp only
  rw [if_neg (by decide), if_pos rfl]
  rw [if_neg hu, he]

theorem parseStrBody_u (rest2 : List Char) (p : Char × List Char)
    (hud : uDecode rest2 = some p) :
    parseStrBody ('\\' :: 'u' :: rest2) = consStr p.1 (parseStrBody p.2) := by
  conv_lhs => rw [parseStrBody.eq_def]
  dsimp only
  rw [if_neg (by decide), if_pos rfl]
  rw [if_pos rfl]
  split
  · rename_i heq
    rw [hud] at heq
    exact absurd heq (by simp)
  · rename_i q heq
    rw [hud] at heq
    injection heq with heq
    rw [heq]

theorem parseStrBody_plain (c : Char) (rest : List Char)
    (h1 : c ≠ '"') (h2 : c ≠ '\\') :
    parseStrBody (c :: rest) = consStr c (parseStrBody rest) := by
  conv_lhs => rw [parseStrBody.eq_def]
  dsimp only
  rw [if_neg h1, if_neg h2]

end PyLog
